import Mathlib

/-!
# radix-cost-exporter: resource aggregation and run store

A shallow embedding of `prometheus.go` (`mapToRequiredResources`) and of
`sql.go` (`SaveRun`, `SaveRequiredResources`, `GetRunsBetweenTimes`,
`execSQL`, `verifyConnection`), followed by the properties proved about them.

Conventions of the embedding

* A Go `map[K]V` is an association list with pairwise distinct keys, kept in
  insertion order.  Go leaves the iteration order of a map unspecified, so
  every property stated about a list obtained by ranging over a map is
  invariant under permutation of that list (membership, length, absence of
  duplicates, permutation).
* A nil-pointer dereference (a Go run-time panic) is the `Except.error` result.
* A `float64` is a finite dyadic number `mantissa * 2 ^ exponent`, NaN or an
  infinity; Go's `int` has 64 bits.  The conversion `int(v)` discards the
  fraction of a finite value whose integer part fits in an `int`; for every
  other value Go leaves the result implementation-dependent, and the
  embedding takes what amd64 yields, the least `int`.
* `time.Time` is an integer (an instant on a linear time line).
-/

namespace RadixCost

/-! ## Go maps -/

/-- A Go map as an association list (distinct keys, insertion order). -/
abbrev GoMap (κ : Type) (υ : Type) := List (κ × υ)

namespace GoMap

variable {κ υ : Type} [DecidableEq κ]

/-- The read `m[k]` with the comma-ok result: `none` when the key is absent. -/
def lookup : GoMap κ υ → κ → Option υ
  | [], _ => none
  | (k', v) :: m, k => if k' = k then some v else lookup m k

/-- The assignment `m[k] = v`: overwrite the slot of `k`, or add a new slot. -/
def store : GoMap κ υ → κ → υ → GoMap κ υ
  | [], k, v => [(k, v)]
  | (k', v') :: m, k, v => if k' = k then (k', v) :: m else (k', v') :: store m k v

/-- The keys of the map. -/
def keys (m : GoMap κ υ) : List κ := m.map Prod.fst

/-- The guard `if m[k] == nil { m[k] = make(...) }` on a map of maps: a slot
holds a nil map exactly when the key is absent. -/
def ensure {κ' : Type} (m : GoMap κ (GoMap κ' υ)) (k : κ) : GoMap κ (GoMap κ' υ) :=
  if (lookup m k).isNone then store m k [] else m

end GoMap

/-! ## Samples -/

/-- A `model.SampleValue` (`float64`): a finite value
`mantissa * 2 ^ exponent`, NaN, or one of the two infinities. -/
inductive SampleValue where
  | finite (mantissa exponent : Int)
  | nan
  | posInf
  | negInf
deriving DecidableEq, Repr

/-- The rational number a finite sample value denotes; none for NaN and the
infinities. -/
def SampleValue.toRat? : SampleValue → Option ℚ
  | .finite mantissa exponent => some ((mantissa : ℚ) * (2 : ℚ) ^ exponent)
  | _ => none

/-- The whole number `n` as a sample value. -/
def SampleValue.ofInt (n : Int) : SampleValue := .finite n 0

/-- The least value of Go's 64-bit `int`. -/
def minInt : Int := -9223372036854775808

/-- The greatest value of Go's 64-bit `int`. -/
def maxInt : Int := 9223372036854775807

/-- The integer part of a finite value, its fraction discarded; none for NaN
and the infinities. -/
def SampleValue.integerPart : SampleValue → Option Int
  | .finite mantissa exponent =>
    some (if 0 ≤ exponent then mantissa * 2 ^ exponent.toNat
          else Int.tdiv mantissa (2 ^ (-exponent).toNat))
  | _ => none

/-- Go's conversion `int(v)` of a `float64` to the 64-bit `int`: the integer
part of a finite value when it fits in an `int`.  For NaN, the infinities and
an integer part out of range Go leaves the result implementation-dependent;
amd64 yields the least `int`, which the embedding takes. -/
def goInt (v : SampleValue) : Int :=
  match v.integerPart with
  | some t => if minInt ≤ t ∧ t ≤ maxInt then t else minInt
  | none => minInt

/-- A `model.Metric`: the label set of a sample, label name to label value. -/
abbrev Metric := GoMap String String

/-- The read `metric[name]` of a label: the empty string when it is absent. -/
def Metric.label (metric : Metric) (name : String) : String :=
  (GoMap.lookup metric name).getD ""

/-- A `model.Sample`: a label set and a scalar value (the timestamp is unused). -/
structure Sample where
  Metric : Metric
  Value : SampleValue
deriving DecidableEq, Repr

/-- A `model.Vector`. -/
abbrev Vector := List Sample

/-- The identity key (application, environment, component). -/
abbrev Key := String × String × String

/-- The identity key a sample carries, as the three loops read it. -/
def Sample.key (s : Sample) : Key :=
  (s.Metric.label "application", s.Metric.label "environment", s.Metric.label "component")

/-- Modelled from the spec: the declaration of the record type
`RequiredResources` is not part of the source files; its fields are those the
source reads and writes (`ID`, `WBS`, `Application`, `Environment`,
`Component`, `CPUMillicore`, `MemoryMegaBytes`, `Replicas`), the
Resource-Usage Record of the data model. -/
structure RequiredResources where
  ID : Int := 0
  WBS : String := ""
  Application : String := ""
  Environment : String := ""
  Component : String := ""
  CPUMillicore : Int := 0
  MemoryMegaBytes : Int := 0
  Replicas : Int := 0
deriving DecidableEq, Repr

/-- The identity key of a record. -/
def RequiredResources.key (r : RequiredResources) : Key :=
  (r.Application, r.Environment, r.Component)

/-- A run-time panic of the Go program. -/
inductive Panic where
  | nilDereference
deriving DecidableEq, Repr

deriving instance DecidableEq for Except

/-! ## `mapToRequiredResources` -/

/-- The type of `reqResources`: application, then environment, then component.
Every slot of the innermost map holds the only pointer to its record, so the
slot stores the record itself and a write through the pointer rewrites the
slot. -/
abbrev ResourceMap := GoMap String (GoMap String (GoMap String RequiredResources))

/-- The read `reqResources[application][environment][component]`; reading a
missing (nil) inner map yields the zero value, at the end the nil pointer. -/
def ResourceMap.index (m : ResourceMap) (k : Key) : Option RequiredResources :=
  GoMap.lookup ((GoMap.lookup ((GoMap.lookup m k.1).getD []) k.2.1).getD []) k.2.2

/-- Rewrite the slot `[application][environment][component]` of the nested
map (the inner maps are shared by reference in Go). -/
def ResourceMap.assign (m : ResourceMap) (k : Key) (r : RequiredResources) : ResourceMap :=
  let envs := (GoMap.lookup m k.1).getD []
  let comps := (GoMap.lookup envs k.2.1).getD []
  GoMap.store m k.1 (GoMap.store envs k.2.1 (GoMap.store comps k.2.2 r))

/-- One iteration of the loop over `requiredReplicas` (lines 80-100). -/
def replicaStep (reqResources : ResourceMap) (replica : Sample) : ResourceMap :=
  let metric := replica.Metric
  let application := metric.label "application"
  let environment := metric.label "environment"
  let component := metric.label "component"
  let req : RequiredResources :=
    { Application := application, Environment := environment, Component := component,
      Replicas := goInt replica.Value }
  let m1 : ResourceMap := GoMap.ensure reqResources application
  let envs1 := GoMap.ensure ((GoMap.lookup m1 application).getD []) environment
  let m2 := GoMap.store m1 application envs1
  ResourceMap.assign m2 (application, environment, component) req

/-- The loop over `requiredReplicas`. -/
def replicaLoop (reqResources : ResourceMap) (requiredReplicas : Vector) : ResourceMap :=
  requiredReplicas.foldl replicaStep reqResources

/-- The loops over `requiredCPU` and `requiredMemory` (lines 102-120), which
differ only in the field written: look the record up and write the field
through the pointer; a nil pointer panics. -/
def assignLoop (write : RequiredResources → Int → RequiredResources) :
    ResourceMap → Vector → Except Panic ResourceMap
  | reqResources, [] => .ok reqResources
  | reqResources, sample :: rest =>
    match ResourceMap.index reqResources sample.key with
    | none => .error .nilDereference
    | some req =>
      assignLoop write (ResourceMap.assign reqResources sample.key
        (write req (goInt sample.Value))) rest

/-- The write `req.CPUMillicore = int(cpu.Value)`. -/
def writeCPU (req : RequiredResources) (v : Int) : RequiredResources :=
  { req with CPUMillicore := v }

/-- The write `req.MemoryMegaBytes = int(memory.Value)`. -/
def writeMemory (req : RequiredResources) (v : Int) : RequiredResources :=
  { req with MemoryMegaBytes := v }

/-- The three nested loops that copy the records out of the map (lines 122-129). -/
def ResourceMap.flatten (m : ResourceMap) : List RequiredResources :=
  m.flatMap fun app => app.2.flatMap fun env => env.2.map fun comp => comp.2

/-- A Go `error` value. -/
abbrev GoError := String

/-- The function `mapToRequiredResources`: the returned pair (records, error),
or the panic that ends it. -/
def mapToRequiredResources (requiredCPU requiredMemory requiredReplicas : Vector) :
    Except Panic (List RequiredResources × Option GoError) :=
  let reqResources := replicaLoop [] requiredReplicas
  match assignLoop writeCPU reqResources requiredCPU with
  | .error p => .error p
  | .ok afterCPU =>
    match assignLoop writeMemory afterCPU requiredMemory with
    | .error p => .error p
    | .ok afterMemory => .ok (ResourceMap.flatten afterMemory, none)

/-- A sample with the three identity labels and the value `value`. -/
def sampleWith (application environment component : String) (value : SampleValue) :
    Sample :=
  { Metric := [("application", application), ("environment", environment),
      ("component", component)],
    Value := value }

/-- A sample with the three identity labels and a whole-number value. -/
def sampleOf (application environment component : String) (value : Int) : Sample :=
  { Metric := [("application", application), ("environment", environment),
      ("component", component)],
    Value := SampleValue.ofInt value }

/-! ## The run store: reconstruction of runs from result rows -/

/-- Modelled from the spec: the declaration of `models.Run` is not part of
the source files; its fields are those the source reads and writes (`ID`,
`MeasuredTimeUTC`, `ClusterCPUMillicore`, `ClusterMemoryMegaByte`,
`Resources`), the Run of the data model.  The defaults are Go's zero values. -/
structure Run where
  ID : Int := 0
  MeasuredTimeUTC : Int := 0
  ClusterCPUMillicore : Int := 0
  ClusterMemoryMegaByte : Int := 0
  Resources : List RequiredResources := []
deriving DecidableEq, Repr

/-- One row of the result set of the retrieval statement, with the twelve
columns in the order `rows.Scan` reads them. -/
structure ResultRow where
  run_id : Int
  measured_time_utc : Int
  cluster_cpu_millicores : Int
  cluster_memory_mega_bytes : Int
  id : Int
  wbs : String
  application : String
  environment : String
  component : String
  cpu_millicores : Int
  memory_mega_bytes : Int
  replicas : Int
deriving DecidableEq, Repr

/-- The value `resource` built from a scanned row (lines 82-91). -/
def ResultRow.resource (row : ResultRow) : RequiredResources :=
  { ID := row.id, WBS := row.wbs, Application := row.application,
    Environment := row.environment, Component := row.component,
    CPUMillicore := row.cpu_millicores, MemoryMegaBytes := row.memory_mega_bytes,
    Replicas := row.replicas }

/-- The value `run` built from a scanned row (lines 96-101); `Resources` is
left at its zero value. -/
def ResultRow.run (row : ResultRow) : Run :=
  { ID := row.run_id, MeasuredTimeUTC := row.measured_time_utc,
    ClusterCPUMillicore := row.cluster_cpu_millicores,
    ClusterMemoryMegaByte := row.cluster_memory_mega_bytes }

/-- The two maps of `GetRunsBetweenTimes`.  A slot of `runsResources` holds
the only pointer to its slice, so the slot stores the slice itself. -/
structure RunMaps where
  runsResources : GoMap Int (List RequiredResources) := []
  runs : GoMap Int Run := []
deriving DecidableEq, Repr

/-- One iteration of the loop over the result rows (lines 57-108), after a
successful `rows.Scan`.  `runs[runID]` of an absent key is the zero `Run`,
whose `ID` is `0`; dereferencing an absent slot of `runsResources` panics. -/
def scanRow (maps : RunMaps) (row : ResultRow) : Except Panic RunMaps :=
  let runID := row.run_id
  let resource := row.resource
  let run : Run := (GoMap.lookup maps.runs runID).getD {}
  if run.ID = 0 then
    .ok { runsResources := GoMap.store maps.runsResources runID [resource],
          runs := GoMap.store maps.runs runID row.run }
  else
    match GoMap.lookup maps.runsResources runID with
    | none => .error .nilDereference
    | some resources =>
      .ok { maps with
            runsResources := GoMap.store maps.runsResources runID (resources ++ [resource]) }

/-- The loop over the result rows. -/
def scanRows : RunMaps → List ResultRow → Except Panic RunMaps
  | maps, [] => .ok maps
  | maps, row :: rest =>
    match scanRow maps row with
    | .error p => .error p
    | .ok maps' => scanRows maps' rest

/-- The loop over `runs` that builds `runsAsArray` (lines 110-114). -/
def collectRuns (runsResources : GoMap Int (List RequiredResources)) :
    GoMap Int Run → Except Panic (List Run)
  | [] => .ok []
  | (key, val) :: rest =>
    match GoMap.lookup runsResources key with
    | none => .error .nilDereference
    | some resources =>
      match collectRuns runsResources rest with
      | .error p => .error p
      | .ok runsAsArray => .ok ({ val with Resources := resources } :: runsAsArray)

/-- The reconstruction of `GetRunsBetweenTimes` (lines 39-40 and 57-116): both
loops, started from the two empty maps. -/
def reconstructRuns (rows : List ResultRow) : Except Panic (List Run) :=
  match scanRows {} rows with
  | .error p => .error p
  | .ok maps => collectRuns maps.runsResources maps.runs

/-! ## The run store: the database and the three operations -/

/-- A row of the table `cost.runs`. -/
structure RunsRow where
  id : Int
  measured_time_utc : Int
  cluster_cpu_millicores : Int
  cluster_memory_mega_bytes : Int
deriving DecidableEq, Repr

/-- A row of the table `cost.required_resources`. -/
structure RequiredResourcesRow where
  id : Int
  run_id : Int
  wbs : String
  application : String
  environment : String
  component : String
  cpu_millicores : Int
  memory_mega_bytes : Int
  replicas : Int
deriving DecidableEq, Repr

/-- The two insert statements, with their named arguments. -/
inductive Insert where
  | run (measuredTimeUTC clusterCPUMillicores clusterMemoryMegaBytes : Int)
  | requiredResources (runId : Int) (wbs application environment component : String)
      (cpuMillicores memoryMegaBytes replicas : Int)
deriving DecidableEq, Repr

/-- A statement handed to the server for execution. -/
inductive Statement where
  | insert (stmt : Insert)
  | selectRunsBetween (lower upper : Int)
deriving DecidableEq, Repr

/-- What the environment answers to one use of the connection: whether
`PingContext`, `Prepare` and the query with its scan succeed. -/
structure Outcome where
  ping : Bool := true
  prepare : Bool := true
  query : Bool := true
deriving DecidableEq, Repr

/-- The answer of a use of the connection on which every step succeeds. -/
def Outcome.ok : Outcome := {}

/-- The state of the database server: the two tables, the next identity value
of each, the answers the environment gives to the coming uses of the
connection (the first first; every use after the last one succeeds), and the
statements handed over for execution so far. -/
structure Database where
  runs : List RunsRow := []
  required_resources : List RequiredResourcesRow := []
  runsIdentity : Int := 1
  requiredResourcesIdentity : Int := 1
  outcomes : List Outcome := []
  issued : List Statement := []
deriving DecidableEq, Repr

/-- The client; `db` is the connection handle, `none` for the nil pointer. -/
structure SQLClient where
  db : Option Unit
deriving DecidableEq, Repr

/-- The effect of an insert statement that succeeds: the row is added with
the next identity value, which `SCOPE_IDENTITY()` returns. -/
def Database.insert (d : Database) : Insert → Int × Database
  | .run t cpu mem =>
    (d.runsIdentity,
     { d with runs := d.runs ++ [{ id := d.runsIdentity, measured_time_utc := t,
                                    cluster_cpu_millicores := cpu,
                                    cluster_memory_mega_bytes := mem }],
              runsIdentity := d.runsIdentity + 1 })
  | .requiredResources runId wbs application environment component cpu mem replicas =>
    (d.requiredResourcesIdentity,
     { d with required_resources := d.required_resources ++
                [{ id := d.requiredResourcesIdentity, run_id := runId, wbs := wbs,
                   application := application, environment := environment,
                   component := component, cpu_millicores := cpu,
                   memory_mega_bytes := mem, replicas := replicas }],
              requiredResourcesIdentity := d.requiredResourcesIdentity + 1 })

/-- The row the retrieval statement selects for a joined pair of rows. -/
def joinRow (r : RunsRow) (rr : RequiredResourcesRow) : ResultRow :=
  { run_id := r.id, measured_time_utc := r.measured_time_utc,
    cluster_cpu_millicores := r.cluster_cpu_millicores,
    cluster_memory_mega_bytes := r.cluster_memory_mega_bytes,
    id := rr.id, wbs := rr.wbs, application := rr.application,
    environment := rr.environment, component := rr.component,
    cpu_millicores := rr.cpu_millicores, memory_mega_bytes := rr.memory_mega_bytes,
    replicas := rr.replicas }

/-- The retrieval statement (line 46): `runs r JOIN required_resources rr ON
r.id = rr.run_id WHERE measured_time_utc BETWEEN @from AND @to`, an inner join
with inclusive bounds. -/
def Database.selectRunsBetween (d : Database) (lower upper : Int) : List ResultRow :=
  (d.runs.filter fun r => lower ≤ r.measured_time_utc ∧ r.measured_time_utc ≤ upper).flatMap
    fun r => (d.required_resources.filter fun rr => r.id = rr.run_id).map (joinRow r)

/-- The function `verifyConnection`: the error (if any), and for a non-nil
handle the answer of the environment to this use of the connection, which is
consumed. -/
def verifyConnection (sqlClient : SQLClient) (d : Database) :
    Option GoError × Outcome × Database :=
  match sqlClient.db with
  | none => (some "CreateRun: db is null", {}, d)
  | some _ =>
    let o := d.outcomes.headD {}
    let d' := { d with outcomes := d.outcomes.tail }
    if o.ping then (none, o, d') else (some "ping: connection is not alive", o, d')

/-- The function `execSQL`, called with an insert statement. -/
def execSQL (sqlClient : SQLClient) (tsql : Insert) (d : Database) :
    (Int × Option GoError) × Database :=
  match verifyConnection sqlClient d with
  | (some err, _, d1) => ((-1, some err), d1)
  | (none, o, d1) =>
    if o.prepare then
      let d2 := { d1 with issued := d1.issued ++ [Statement.insert tsql] }
      if o.query then
        let (newID, d3) := d2.insert tsql
        ((newID, none), d3)
      else ((-1, some "query: statement failed"), d2)
    else ((-1, some "prepare: statement failed"), d1)

/-- The function `SaveRun`. -/
def SaveRun (sqlClient : SQLClient) (measuredTime clusterCPUMillicores
    clusterMemoryMegaBytes : Int) (d : Database) : (Int × Option GoError) × Database :=
  execSQL sqlClient (.run measuredTime clusterCPUMillicores clusterMemoryMegaBytes) d

/-- The insert statement `SaveRequiredResources` builds for one record. -/
def insertOf (runID : Int) (req : RequiredResources) : Insert :=
  .requiredResources runID req.WBS req.Application req.Environment req.Component
    req.CPUMillicore req.MemoryMegaBytes req.Replicas

/-- The loop of `SaveRequiredResources` (lines 123-137). -/
def saveLoop (sqlClient : SQLClient) (runID : Int) :
    List RequiredResources → Database → Option GoError × Database
  | [], d => (none, d)
  | req :: rest, d =>
    match execSQL sqlClient (insertOf runID req) d with
    | ((_, some err), d') => (some ("Failed to insert req resources " ++ err), d')
    | ((_, none), d') => saveLoop sqlClient runID rest d'

/-- The function `SaveRequiredResources`. -/
def SaveRequiredResources (sqlClient : SQLClient) (run : Run) (d : Database) :
    Option GoError × Database :=
  saveLoop sqlClient run.ID run.Resources d

/-- The function `GetRunsBetweenTimes`.  The columns of the model hold no
NULL, so `rows.Scan` succeeds on every row. -/
def GetRunsBetweenTimes (sqlClient : SQLClient) (lower upper : Int) (d : Database) :
    Except Panic (List Run × Option GoError) × Database :=
  match verifyConnection sqlClient d with
  | (some err, _, d1) => (.ok ([], some err), d1)
  | (none, o, d1) =>
    let d2 := { d1 with issued := d1.issued ++ [Statement.selectRunsBetween lower upper] }
    if o.query then
      match reconstructRuns (d2.selectRunsBetween lower upper) with
      | .error p => (.error p, d2)
      | .ok runsAsArray => (.ok (runsAsArray, none), d2)
    else (.ok ([], some "query: statement failed"), d2)

/-! ## Vocabulary of the statements -/

/-- The last sample of a vector that carries the identity key `k`. -/
def lastWith (k : Key) (v : Vector) : Option Sample :=
  (v.filter fun s => s.key = k).getLast?

/-- The integer of the last sample carrying `k`, or the zero value of the
field when the vector has no sample carrying `k`. -/
def lastValue (k : Key) (v : Vector) : Int :=
  ((lastWith k v).map fun s => goInt s.Value).getD 0

/-- The record expected for the identity key `k`: present when the replica
vector carries `k`; replicas, CPU and memory from the last sample carrying
`k` in the respective vector, zero where there is none. -/
def expectedRecord (requiredCPU requiredMemory requiredReplicas : Vector) (k : Key) :
    Option RequiredResources :=
  (lastWith k requiredReplicas).map fun s =>
    { Application := k.1, Environment := k.2.1, Component := k.2.2,
      CPUMillicore := lastValue k requiredCPU,
      MemoryMegaBytes := lastValue k requiredMemory,
      Replicas := goInt s.Value }

/-- Truncation toward zero of a rational number: the floor of a non-negative
number, the ceiling of a negative one. -/
def truncTowardZero (q : ℚ) : Int := if 0 ≤ q then ⌊q⌋ else ⌈q⌉

/-- The record `{a,prod,web,cpu=150,mem=0,replicas=3}` of the scenarios. -/
def webRecord : RequiredResources :=
  { Application := "a", Environment := "prod", Component := "web",
    CPUMillicore := 150, MemoryMegaBytes := 0, Replicas := 3 }

/-- The record `{b,dev,api,cpu=0,mem=0,replicas=2}` of the scenarios. -/
def apiRecord : RequiredResources :=
  { Application := "b", Environment := "dev", Component := "api", Replicas := 2 }

/-- The identity keys occurring in a vector. -/
def vectorKeys (v : Vector) : List Key := v.map Sample.key

/-- Invariant of an innermost map filed under `(a, e)`: distinct component
keys, every record filed under its own identity key. -/
def CompsWF (a e : String) (comps : GoMap String RequiredResources) : Prop :=
  (GoMap.keys comps).Nodup ∧ ∀ comp ∈ comps, comp.2.key = (a, e, comp.1)

/-- Invariant of a middle map filed under the application `a`. -/
def EnvsWF (a : String) (envs : GoMap String (GoMap String RequiredResources)) : Prop :=
  (GoMap.keys envs).Nodup ∧ ∀ env ∈ envs, CompsWF a env.1 env.2

/-- Representation invariant of the nested map: distinct keys on every level
and every record filed under its own identity key. -/
def ResourceMap.WF (m : ResourceMap) : Prop :=
  (GoMap.keys m).Nodup ∧ ∀ app ∈ m, EnvsWF app.1 app.2

/-- The run identifiers occurring in a list of result rows. -/
def rowIds (rows : List ResultRow) : List Int := rows.map fun row => row.run_id

/-- The rows of a result set that belong to the run `i`. -/
def rowsOf (i : Int) (rows : List ResultRow) : List ResultRow :=
  rows.filter fun row => row.run_id = i

/-- Invariant of the loop over the result rows, after the rows `pre`. -/
structure ScanInv (pre : List ResultRow) (maps : RunMaps) : Prop where
  nodup : (GoMap.keys maps.runs).Nodup
  origin : ∀ i run, GoMap.lookup maps.runs i = some run →
    ∃ row ∈ pre, row.run_id = i ∧ run = row.run
  present : ∀ i, i ∈ rowIds pre →
    (GoMap.lookup maps.runs i).isSome = true ∧ (GoMap.lookup maps.runsResources i).isSome = true
  first : ∀ i, i ≠ 0 → ∀ row, (rowsOf i pre).head? = some row →
    GoMap.lookup maps.runs i = some row.run
  resources : ∀ i, i ≠ 0 → i ∈ rowIds pre →
    GoMap.lookup maps.runsResources i = some ((rowsOf i pre).map ResultRow.resource)

/-- Five result rows of the runs `1` and `2`, interleaved. -/
def interleavedRows : List ResultRow :=
  [⟨1, 10, 100, 200, 1, "w", "a", "prod", "web", 150, 64, 3⟩,
   ⟨2, 20, 300, 400, 2, "w", "a", "prod", "web", 160, 64, 3⟩,
   ⟨1, 10, 100, 200, 3, "w", "b", "dev", "api", 20, 32, 2⟩,
   ⟨2, 20, 300, 400, 4, "w", "b", "dev", "api", 30, 32, 2⟩,
   ⟨1, 10, 100, 200, 5, "w", "c", "qa", "db", 40, 16, 1⟩]

/-- Whether a use of the connection by `execSQL` succeeds at every step. -/
def Outcome.succeeds (o : Outcome) : Bool := o.ping && o.prepare && o.query

/-- The rows of `cost.required_resources` that successful inserts of the
records `reqs` for the run `runID` add, the first with the identity `firstId`. -/
def insertedRows (runID : Int) : Int → List RequiredResources → List RequiredResourcesRow
  | _, [] => []
  | firstId, req :: rest =>
    { id := firstId, run_id := runID, wbs := req.WBS, application := req.Application,
      environment := req.Environment, component := req.Component,
      cpu_millicores := req.CPUMillicore, memory_mega_bytes := req.MemoryMegaBytes,
      replicas := req.Replicas } :: insertedRows runID (firstId + 1) rest

/-- The statements issued by the inserts of the records `reqs`. -/
def insertsOf (runID : Int) (reqs : List RequiredResources) : List Statement :=
  reqs.map fun req => Statement.insert (insertOf runID req)

/-- The database after successful inserts of the records `reqs` for `runID`. -/
def Database.afterInserts (d : Database) (runID : Int) (reqs : List RequiredResources) :
    Database :=
  { d with
    required_resources :=
      d.required_resources ++ insertedRows runID d.requiredResourcesIdentity reqs,
    requiredResourcesIdentity := d.requiredResourcesIdentity + reqs.length,
    outcomes := d.outcomes.drop reqs.length,
    issued := d.issued ++ insertsOf runID reqs }

/-- The database after a successful `SaveRun`. -/
def Database.afterSaveRun (d : Database) (measuredTime clusterCPUMillicores
    clusterMemoryMegaBytes : Int) : Database :=
  { d with
    runs := d.runs ++ [{ id := d.runsIdentity, measured_time_utc := measuredTime,
                         cluster_cpu_millicores := clusterCPUMillicores,
                         cluster_memory_mega_bytes := clusterMemoryMegaBytes }],
    runsIdentity := d.runsIdentity + 1,
    outcomes := d.outcomes.tail,
    issued := d.issued ++
      [Statement.insert (.run measuredTime clusterCPUMillicores clusterMemoryMegaBytes)] }

/-- A record without its storage-assigned identifier. -/
def RequiredResources.unsaved (r : RequiredResources) : RequiredResources :=
  { r with ID := 0 }

/-- The round trip: `SaveRun`, then `SaveRequiredResources` on the run with
the returned identifier and the records `reqs`, then `GetRunsBetweenTimes`;
the three results. -/
def roundTrip (sqlClient : SQLClient) (d : Database) (measuredTime clusterCPUMillicores
    clusterMemoryMegaBytes : Int) (reqs : List RequiredResources) (lower upper : Int) :
    (Int × Option GoError) × Option GoError × Except Panic (List Run × Option GoError) :=
  let saved := SaveRun sqlClient measuredTime clusterCPUMillicores clusterMemoryMegaBytes d
  let stored := SaveRequiredResources sqlClient
    { ID := saved.1.1, MeasuredTimeUTC := measuredTime,
      ClusterCPUMillicore := clusterCPUMillicores,
      ClusterMemoryMegaByte := clusterMemoryMegaBytes, Resources := reqs } saved.2
  (saved.1, stored.1, (GetRunsBetweenTimes sqlClient lower upper stored.2).1)

/-- A database with three runs: run `1` (time 10) with one resource, run `2`
(time 15) without resources, run `3` (time 50) with one resource. -/
def storedRuns : Database :=
  { runs := [⟨1, 10, 100, 200⟩, ⟨2, 15, 300, 400⟩, ⟨3, 50, 500, 600⟩],
    required_resources :=
      [⟨1, 1, "w", "a", "prod", "web", 150, 64, 3⟩, ⟨2, 3, "w", "b", "dev", "api", 20, 32, 2⟩],
    runsIdentity := 4, requiredResourcesIdentity := 3 }

/-! ## Properties of Go maps -/

namespace GoMap

variable {κ υ : Type} [DecidableEq κ]

theorem lookup_store_self (m : GoMap κ υ) (k : κ) (v : υ) :
    lookup (store m k v) k = some v := by
  induction m with
  | nil => simp [store, lookup]
  | cons p m ih =>
    obtain ⟨k', v'⟩ := p
    by_cases h : k' = k <;> simp [store, lookup, h, ih]

theorem lookup_store_ne (m : GoMap κ υ) {k k' : κ} (v : υ) (h : k ≠ k') :
    lookup (store m k v) k' = lookup m k' := by
  induction m with
  | nil => simp [store, lookup, h]
  | cons p m ih =>
    obtain ⟨k0, v0⟩ := p
    by_cases h0 : k0 = k
    · subst h0; simp [store, lookup, h]
    · by_cases h1 : k0 = k'
      · subst h1; simp [store, lookup, h0]
      · simp [store, lookup, h0, h1, ih]

theorem lookup_eq_none_iff (m : GoMap κ υ) (k : κ) : lookup m k = none ↔ k ∉ keys m := by
  induction m with
  | nil => simp [lookup, keys]
  | cons p m ih =>
    obtain ⟨k0, v0⟩ := p
    by_cases h0 : k0 = k
    · simp [lookup, keys, h0]
    · simp only [keys] at ih
      simp [lookup, keys, h0, ih, Ne.symm h0]

theorem mem_of_lookup {m : GoMap κ υ} {k : κ} {v : υ} (h : lookup m k = some v) :
    (k, v) ∈ m := by
  induction m with
  | nil => simp [lookup] at h
  | cons p m ih =>
    obtain ⟨k0, v0⟩ := p
    by_cases h0 : k0 = k
    · simp [lookup, h0] at h; simp [h0, h]
    · simp [lookup, h0] at h; simp [ih h]

theorem lookup_of_mem {m : GoMap κ υ} {k : κ} {v : υ} (hn : (keys m).Nodup)
    (h : (k, v) ∈ m) : lookup m k = some v := by
  induction m with
  | nil => simp at h
  | cons p m ih =>
    obtain ⟨k0, v0⟩ := p
    simp only [keys, List.map_cons, List.nodup_cons, List.mem_map, not_exists, not_and] at hn
    rcases List.mem_cons.mp h with h1 | h1
    · simp only [Prod.mk.injEq] at h1
      simp [lookup, h1.1, h1.2]
    · have hne : k0 ≠ k := fun e => hn.1 (k, v) h1 e.symm
      simp only [lookup, hne, if_false]
      exact ih hn.2 h1

theorem mem_store {m : GoMap κ υ} {k : κ} {v : υ} {p : κ × υ} (h : p ∈ store m k v) :
    p = (k, v) ∨ p ∈ m := by
  induction m with
  | nil => simpa [store] using h
  | cons q m ih =>
    obtain ⟨k0, v0⟩ := q
    by_cases h0 : k0 = k
    · simp only [store, h0, if_true, List.mem_cons] at h
      rcases h with h | h
      · exact Or.inl h
      · exact Or.inr (List.mem_cons_of_mem _ h)
    · simp only [store, h0, if_false, List.mem_cons] at h
      rcases h with h | h
      · exact Or.inr (by simp [h])
      · rcases ih h with h | h
        · exact Or.inl h
        · exact Or.inr (List.mem_cons_of_mem _ h)

theorem mem_keys_store (m : GoMap κ υ) (k k' : κ) (v : υ) :
    k' ∈ keys (store m k v) ↔ k' = k ∨ k' ∈ keys m := by
  induction m with
  | nil => simp [store, keys]
  | cons q m ih =>
    obtain ⟨k0, v0⟩ := q
    simp only [keys] at ih
    by_cases h0 : k0 = k
    · subst h0; simp [store, keys]
    · simp only [store, h0, if_false, keys, List.map_cons, List.mem_cons, ih]
      tauto

theorem nodup_keys_store {m : GoMap κ υ} (k : κ) (v : υ) (hn : (keys m).Nodup) :
    (keys (store m k v)).Nodup := by
  induction m with
  | nil => simp [store, keys]
  | cons q m ih =>
    obtain ⟨k0, v0⟩ := q
    have hn' : k0 ∉ keys m ∧ (keys m).Nodup := by simpa [keys] using hn
    by_cases h0 : k0 = k
    · simpa [store, h0, keys] using hn
    · have hmem : k0 ∉ keys (store m k v) := by
        rw [mem_keys_store]; push_neg; exact ⟨h0, hn'.1⟩
      have := ih hn'.2
      simp only [store, h0, if_false, keys, List.map_cons, List.nodup_cons]
      exact ⟨by simpa [keys] using hmem, by simpa [keys] using this⟩

end GoMap

/-! ## The nested resource map -/

theorem compsWF_store {a e : String} {comps : GoMap String RequiredResources}
    (h : CompsWF a e comps) (c : String) {r : RequiredResources} (hr : r.key = (a, e, c)) :
    CompsWF a e (GoMap.store comps c r) := by
  refine ⟨GoMap.nodup_keys_store c r h.1, fun comp hc => ?_⟩
  rcases GoMap.mem_store hc with h1 | h1
  · subst h1; exact hr
  · exact h.2 comp h1

theorem envsWF_store {a : String} {envs : GoMap String (GoMap String RequiredResources)}
    (h : EnvsWF a envs) (e : String) {comps : GoMap String RequiredResources}
    (hc : CompsWF a e comps) : EnvsWF a (GoMap.store envs e comps) := by
  refine ⟨GoMap.nodup_keys_store e comps h.1, fun env he => ?_⟩
  rcases GoMap.mem_store he with h1 | h1
  · subst h1; exact hc
  · exact h.2 env h1

theorem resourceMap_wf_store {m : ResourceMap} (h : m.WF) (a : String)
    {envs : GoMap String (GoMap String RequiredResources)} (he : EnvsWF a envs) :
    ResourceMap.WF (GoMap.store m a envs) := by
  refine ⟨GoMap.nodup_keys_store a envs h.1, fun app ha => ?_⟩
  rcases GoMap.mem_store ha with h1 | h1
  · subst h1; exact he
  · exact h.2 app h1

theorem resourceMap_wf_envs {m : ResourceMap} (h : m.WF) (a : String) :
    EnvsWF a ((GoMap.lookup m a).getD []) := by
  cases hl : GoMap.lookup m a with
  | none => exact ⟨List.nodup_nil, fun _ hx => by simp at hx⟩
  | some envs => exact h.2 (a, envs) (GoMap.mem_of_lookup hl)

theorem envsWF_comps {a : String} {envs : GoMap String (GoMap String RequiredResources)}
    (h : EnvsWF a envs) (e : String) : CompsWF a e ((GoMap.lookup envs e).getD []) := by
  cases hl : GoMap.lookup envs e with
  | none => exact ⟨List.nodup_nil, fun _ hx => by simp at hx⟩
  | some comps => exact h.2 (e, comps) (GoMap.mem_of_lookup hl)

theorem resourceMap_wf_nil : ResourceMap.WF [] :=
  ⟨List.nodup_nil, fun _ hx => by simp at hx⟩

theorem resourceMap_wf_assign {m : ResourceMap} (h : m.WF) {k : Key} {r : RequiredResources}
    (hr : r.key = k) : (m.assign k r).WF := by
  obtain ⟨a, e, c⟩ := k
  exact resourceMap_wf_store h a (envsWF_store (resourceMap_wf_envs h a) e
    (compsWF_store (envsWF_comps (resourceMap_wf_envs h a) e) c hr))

theorem ResourceMap.index_assign (m : ResourceMap) (k k' : Key) (r : RequiredResources) :
    (m.assign k r).index k' = if k = k' then some r else m.index k' := by
  obtain ⟨a, e, c⟩ := k
  obtain ⟨a', e', c'⟩ := k'
  simp only [ResourceMap.index, ResourceMap.assign]
  by_cases ha : a = a'
  · subst ha
    rw [GoMap.lookup_store_self]
    by_cases he : e = e'
    · subst he
      simp only [Option.getD_some, GoMap.lookup_store_self]
      by_cases hc : c = c'
      · subst hc; simp [GoMap.lookup_store_self]
      · simp [GoMap.lookup_store_ne _ _ hc, hc]
    · simp [GoMap.lookup_store_ne _ _ he, he]
  · simp [GoMap.lookup_store_ne _ _ ha, ha]

theorem GoMap.getD_lookup_ensure {κ κ' υ : Type} [DecidableEq κ]
    (m : GoMap κ (GoMap κ' υ)) (k k' : κ) :
    (GoMap.lookup (GoMap.ensure m k) k').getD [] = (GoMap.lookup m k').getD [] := by
  unfold GoMap.ensure
  split
  · rename_i h
    by_cases hk : k = k'
    · subst hk
      cases hl : GoMap.lookup m k <;> simp_all [GoMap.lookup_store_self]
    · rw [GoMap.lookup_store_ne _ _ hk]
  · rfl

theorem envsWF_ensure {a : String} {envs : GoMap String (GoMap String RequiredResources)}
    (h : EnvsWF a envs) (e : String) : EnvsWF a (GoMap.ensure envs e) := by
  unfold GoMap.ensure
  split
  · exact envsWF_store h e ⟨List.nodup_nil, fun _ hx => by simp at hx⟩
  · exact h

theorem resourceMap_wf_ensure {m : ResourceMap} (h : m.WF) (a : String) :
    ResourceMap.WF (GoMap.ensure m a) := by
  unfold GoMap.ensure
  split
  · exact resourceMap_wf_store h a ⟨List.nodup_nil, fun _ hx => by simp at hx⟩
  · exact h

/-- The record the replica loop files for a sample. -/
theorem ResourceMap.index_replicaStep (m : ResourceMap) (s : Sample) (k : Key) :
    (replicaStep m s).index k =
      if s.key = k then
        some { Application := s.key.1, Environment := s.key.2.1, Component := s.key.2.2,
               Replicas := goInt s.Value }
      else m.index k := by
  obtain ⟨a', e', c'⟩ := k
  simp only [replicaStep, Sample.key, ResourceMap.index_assign]
  split
  · rfl
  · simp only [ResourceMap.index]
    congr 1
    by_cases ha : s.Metric.label "application" = a'
    · subst ha
      rw [GoMap.lookup_store_self]
      simp only [Option.getD_some]
      rw [GoMap.getD_lookup_ensure, GoMap.getD_lookup_ensure]
    · rw [GoMap.lookup_store_ne _ _ ha, GoMap.getD_lookup_ensure]

theorem resourceMap_wf_replicaStep {m : ResourceMap} (h : m.WF) (s : Sample) :
    (replicaStep m s).WF := by
  simp only [replicaStep]
  refine resourceMap_wf_assign ?_ rfl
  exact resourceMap_wf_store (resourceMap_wf_ensure h _) _
    (envsWF_ensure (resourceMap_wf_envs (resourceMap_wf_ensure h _) _) _)

theorem ResourceMap.key_of_index {m : ResourceMap} (h : m.WF) {k : Key} {r : RequiredResources}
    (hi : m.index k = some r) : r.key = k := by
  obtain ⟨a, e, c⟩ := k
  simp only [ResourceMap.index] at hi
  exact (envsWF_comps (resourceMap_wf_envs h a) e).2 (c, r) (GoMap.mem_of_lookup hi)

theorem ResourceMap.mem_flatten_iff {m : ResourceMap} (h : m.WF) (r : RequiredResources) :
    r ∈ m.flatten ↔ ∃ k, m.index k = some r := by
  simp only [ResourceMap.flatten, List.mem_flatMap, List.mem_map]
  constructor
  · rintro ⟨app, happ, env, henv, comp, hcomp, rfl⟩
    refine ⟨(app.1, env.1, comp.1), ?_⟩
    have h1 := GoMap.lookup_of_mem h.1 happ
    have h2 := GoMap.lookup_of_mem (h.2 app happ).1 henv
    have h3 := GoMap.lookup_of_mem ((h.2 app happ).2 env henv).1 hcomp
    simp [ResourceMap.index, h1, h2, h3]
  · rintro ⟨⟨a, e, c⟩, hi⟩
    simp only [ResourceMap.index] at hi
    cases h1 : GoMap.lookup m a with
    | none => simp [h1, GoMap.lookup] at hi
    | some envs =>
      cases h2 : GoMap.lookup envs e with
      | none => simp [h1, h2, GoMap.lookup] at hi
      | some comps =>
        simp only [h1, h2, Option.getD_some] at hi
        exact ⟨(a, envs), GoMap.mem_of_lookup h1, (e, comps), GoMap.mem_of_lookup h2,
          (c, r), GoMap.mem_of_lookup hi, rfl⟩

theorem ResourceMap.nodup_flatten_keys {m : ResourceMap} (h : m.WF) :
    (m.flatten.map RequiredResources.key).Nodup := by
  simp only [ResourceMap.flatten, List.map_flatMap, List.map_map]
  rw [List.nodup_flatMap]
  constructor
  · intro app happ
    rw [List.nodup_flatMap]
    constructor
    · intro env henv
      have hc := (h.2 app happ).2 env henv
      have : List.map (RequiredResources.key ∘ fun comp => comp.2) env.2
          = List.map (fun c => (app.1, env.1, c)) (GoMap.keys env.2) := by
        simp only [GoMap.keys, List.map_map]
        exact List.map_congr_left fun comp hcomp => hc.2 comp hcomp
      rw [this]
      exact hc.1.map fun x y hxy => by simpa using hxy
    · have hk : (GoMap.keys app.2).Nodup := (h.2 app happ).1
      simp only [GoMap.keys] at hk
      refine (List.pairwise_map.mp hk).imp_of_mem ?_
      intro env1 env2 h1 h2 hne
      simp only [Function.onFun, List.disjoint_left, List.mem_map, Function.comp]
      rintro x ⟨c1, hc1, rfl⟩ ⟨c2, hc2, hx⟩
      have e1 := ((h.2 app happ).2 env1 h1).2 c1 hc1
      have e2 := ((h.2 app happ).2 env2 h2).2 c2 hc2
      rw [e1, e2] at hx
      simp only [Prod.mk.injEq] at hx
      exact hne hx.2.1.symm
  · have hk := h.1
    simp only [GoMap.keys] at hk
    refine (List.pairwise_map.mp hk).imp_of_mem ?_
    intro app1 app2 h1 h2 hne
    simp only [Function.onFun, List.disjoint_left, List.mem_flatMap, List.mem_map,
      Function.comp]
    rintro x ⟨env1, he1, c1, hc1, rfl⟩ ⟨env2, he2, c2, hc2, hx⟩
    have e1 := ((h.2 app1 h1).2 env1 he1).2 c1 hc1
    have e2 := ((h.2 app2 h2).2 env2 he2).2 c2 hc2
    rw [e1, e2] at hx
    simp only [Prod.mk.injEq] at hx
    exact hne hx.1.symm

/-! ## Last sample of a key -/

theorem lastWith_nil (k : Key) : lastWith k [] = none := rfl

theorem lastWith_cons (k : Key) (s : Sample) (v : Vector) :
    lastWith k (s :: v) =
      match lastWith k v with
      | some t => some t
      | none => if s.key = k then some s else none := by
  unfold lastWith
  by_cases hs : s.key = k
  · simp only [List.filter_cons, hs, decide_True, if_true]
    cases hf : List.filter (fun s => decide (s.key = k)) v with
    | nil => simp
    | cons b l =>
      rw [List.getLast?_cons_cons]
      cases hg : (b :: l).getLast? with
      | none => simp at hg
      | some t => rfl
  · simp only [List.filter_cons, hs, decide_False, if_false]
    cases hf : (List.filter (fun s => decide (s.key = k)) v).getLast? <;> simp [hf] 

theorem lastWith_eq_none_iff (k : Key) (v : Vector) :
    lastWith k v = none ↔ k ∉ vectorKeys v := by
  induction v with
  | nil => simp [lastWith_nil, vectorKeys]
  | cons s v ih =>
    rw [lastWith_cons]
    simp only [vectorKeys] at ih
    cases hl : lastWith k v with
    | none =>
      have := ih.mp hl
      by_cases hs : s.key = k
      · simp [hs, vectorKeys]
      · simp [hs, vectorKeys, this, Ne.symm hs]
    | some t =>
      have : ¬ (k ∉ List.map Sample.key v) := fun hc => by simp [ih.mpr hc] at hl
      simp only [not_not] at this
      simp [vectorKeys, this]

theorem lastWith_key {k : Key} {v : Vector} {s : Sample} (h : lastWith k v = some s) :
    s.key = k ∧ s ∈ v := by
  unfold lastWith at h
  have := List.mem_of_getLast?_eq_some h
  simpa [And.comm] using List.mem_filter.mp this

/-! ## The three loops -/

theorem resourceMap_wf_replicaLoop {m : ResourceMap} (h : m.WF) (v : Vector) :
    (replicaLoop m v).WF := by
  induction v generalizing m with
  | nil => exact h
  | cons s v ih => exact ih (resourceMap_wf_replicaStep h s)

theorem ResourceMap.index_replicaLoop (m : ResourceMap) (v : Vector) (k : Key) :
    (replicaLoop m v).index k =
      match lastWith k v with
      | some s => some { Application := k.1, Environment := k.2.1, Component := k.2.2,
                         Replicas := goInt s.Value }
      | none => m.index k := by
  induction v generalizing m with
  | nil => simp [replicaLoop, lastWith_nil]
  | cons s v ih =>
    have hstep : replicaLoop m (s :: v) = replicaLoop (replicaStep m s) v := rfl
    rw [hstep, ih, lastWith_cons, ResourceMap.index_replicaStep]
    cases lastWith k v with
    | some t => rfl
    | none =>
      by_cases hs : s.key = k
      · subst hs; simp
      · simp [hs]

theorem assignLoop_ok_iff (write : RequiredResources → Int → RequiredResources)
    (m : ResourceMap) (v : Vector) :
    (∃ m', assignLoop write m v = .ok m') ↔ ∀ s ∈ v, (m.index s.key).isSome = true := by
  induction v generalizing m with
  | nil => simp [assignLoop]
  | cons s v ih =>
    cases hi : m.index s.key with
    | none => simp [assignLoop, hi]
    | some req =>
      simp only [assignLoop, hi, ih, List.mem_cons, forall_eq_or_imp, Option.isSome_some,
        true_and, ResourceMap.index_assign]
      refine forall₂_congr fun t _ => ?_
      by_cases hk : s.key = t.key
      · rw [if_pos hk, ← hk, hi]; simp
      · rw [if_neg hk]

theorem assignLoop_index {write : RequiredResources → Int → RequiredResources}
    (hw : ∀ r a b, write (write r a) b = write r b)
    {m m' : ResourceMap} {v : Vector} (h : assignLoop write m v = .ok m') (k : Key) :
    m'.index k = (m.index k).map fun r =>
      match lastWith k v with
      | some s => write r (goInt s.Value)
      | none => r := by
  induction v generalizing m with
  | nil =>
    simp only [assignLoop, Except.ok.injEq] at h
    subst h
    cases m.index k <;> simp [lastWith_nil]
  | cons s v ih =>
    cases hi : m.index s.key with
    | none => simp [assignLoop, hi] at h
    | some req =>
      simp only [assignLoop, hi] at h
      rw [ih h, ResourceMap.index_assign, lastWith_cons]
      by_cases hk : s.key = k
      · subst hk
        simp only [if_true, hi, Option.map_some']
        cases lastWith s.key v with
        | some t => simp [hw]
        | none => simp
      · simp only [hk, if_false]
        cases lastWith k v <;> rfl

theorem assignLoop_WF {write : RequiredResources → Int → RequiredResources}
    (hk : ∀ r a, (write r a).key = r.key)
    {m m' : ResourceMap} {v : Vector} (hm : m.WF) (h : assignLoop write m v = .ok m') :
    m'.WF := by
  induction v generalizing m with
  | nil =>
    simp only [assignLoop, Except.ok.injEq] at h
    exact h ▸ hm
  | cons s v ih =>
    cases hi : m.index s.key with
    | none => simp [assignLoop, hi] at h
    | some req =>
      simp only [assignLoop, hi] at h
      exact ih (resourceMap_wf_assign hm ((hk req _).trans (ResourceMap.key_of_index hm hi))) h

theorem writeCPU_write (r : RequiredResources) (a b : Int) :
    writeCPU (writeCPU r a) b = writeCPU r b := rfl

theorem writeMemory_write (r : RequiredResources) (a b : Int) :
    writeMemory (writeMemory r a) b = writeMemory r b := rfl

theorem writeCPU_key (r : RequiredResources) (a : Int) : (writeCPU r a).key = r.key := rfl

theorem writeMemory_key (r : RequiredResources) (a : Int) : (writeMemory r a).key = r.key := rfl

theorem index_replicaLoop_isSome (v : Vector) (k : Key) :
    ((replicaLoop [] v).index k).isSome = true ↔ k ∈ vectorKeys v := by
  rw [ResourceMap.index_replicaLoop]
  cases hl : lastWith k v with
  | none =>
    have := (lastWith_eq_none_iff k v).mp hl
    simp [ResourceMap.index, GoMap.lookup, this]
  | some s =>
    have : ¬ (k ∉ vectorKeys v) := fun hc => by
      rw [(lastWith_eq_none_iff k v).mpr hc] at hl; cases hl
    simpa using this

/-- The function returns exactly when every CPU and memory key is a replica key. -/
theorem mapToRequiredResources_ok_iff (cpu mem rep : Vector) :
    (∃ out, mapToRequiredResources cpu mem rep = .ok out) ↔
      (∀ s ∈ cpu, s.key ∈ vectorKeys rep) ∧ (∀ s ∈ mem, s.key ∈ vectorKeys rep) := by
  unfold mapToRequiredResources
  simp only
  cases h1 : assignLoop writeCPU (replicaLoop [] rep) cpu with
  | error p =>
    have hno : ¬ ∃ m', assignLoop writeCPU (replicaLoop [] rep) cpu = .ok m' := by
      rintro ⟨m', hm'⟩; rw [h1] at hm'; cases hm'
    rw [assignLoop_ok_iff] at hno
    simp only [index_replicaLoop_isSome] at hno
    simp [hno]
  | ok m2 =>
    have hyes := (assignLoop_ok_iff writeCPU (replicaLoop [] rep) cpu).mp ⟨m2, h1⟩
    simp only [index_replicaLoop_isSome] at hyes
    have hdom : ∀ k, (m2.index k).isSome = true ↔ k ∈ vectorKeys rep := by
      intro k
      rw [assignLoop_index writeCPU_write h1 k, Option.isSome_map']
      exact index_replicaLoop_isSome rep k
    cases h2 : assignLoop writeMemory m2 mem with
    | error p =>
      have hno : ¬ ∃ m', assignLoop writeMemory m2 mem = .ok m' := by
        rintro ⟨m', hm'⟩; rw [h2] at hm'; cases hm'
      rw [assignLoop_ok_iff] at hno
      simp only [hdom] at hno
      simp [h2, hno]
    | ok m3 =>
      have hyes2 := (assignLoop_ok_iff writeMemory m2 mem).mp ⟨m3, h2⟩
      simp only [hdom] at hyes2
      simp only [h2]
      exact ⟨fun _ => ⟨hyes, hyes2⟩, fun _ => ⟨_, rfl⟩⟩

/-- What the function returns: no error, one record per expected record. -/
theorem mapToRequiredResources_spec {cpu mem rep : Vector}
    {out : List RequiredResources × Option GoError}
    (h : mapToRequiredResources cpu mem rep = .ok out) :
    out.2 = none ∧ (out.1.map RequiredResources.key).Nodup ∧
      ∀ r, r ∈ out.1 ↔ ∃ k, expectedRecord cpu mem rep k = some r := by
  unfold mapToRequiredResources at h
  simp only at h
  cases h1 : assignLoop writeCPU (replicaLoop [] rep) cpu with
  | error p => simp [h1] at h
  | ok m2 =>
    cases h2 : assignLoop writeMemory m2 mem with
    | error p => simp [h1, h2] at h
    | ok m3 =>
      simp only [h1, h2, Except.ok.injEq] at h
      subst h
      have wf1 : (replicaLoop [] rep).WF := resourceMap_wf_replicaLoop resourceMap_wf_nil rep
      have wf2 : m2.WF := assignLoop_WF writeCPU_key wf1 h1
      have wf3 : m3.WF := assignLoop_WF writeMemory_key wf2 h2
      refine ⟨rfl, ResourceMap.nodup_flatten_keys wf3, fun r => ?_⟩
      rw [ResourceMap.mem_flatten_iff wf3]
      refine exists_congr fun k => ?_
      rw [assignLoop_index writeMemory_write h2 k, assignLoop_index writeCPU_write h1 k,
        ResourceMap.index_replicaLoop]
      unfold expectedRecord lastValue
      cases lastWith k rep with
      | none => simp [ResourceMap.index, GoMap.lookup]
      | some s =>
        cases lastWith k cpu <;> cases lastWith k mem <;>
          simp [writeCPU, writeMemory]

/-! ## Conversion of sample values -/

theorem rat_of_nonneg_exponent (m e : Int) (h : 0 ≤ e) :
    (m : ℚ) * (2 : ℚ) ^ e = ((m * 2 ^ e.toNat : ℤ) : ℚ) := by
  obtain ⟨n, rfl⟩ := Int.eq_ofNat_of_zero_le h
  simp

theorem rat_of_neg_exponent (m e : Int) (h : ¬ 0 ≤ e) :
    (m : ℚ) * (2 : ℚ) ^ e = (m : ℚ) / ((2 ^ (-e).toNat : ℕ) : ℚ) := by
  have he : e = -((-e).toNat : ℤ) := by omega
  generalize (-e).toNat = n at he
  subst he
  simp [zpow_neg, div_eq_mul_inv]

/-- The integer part of a finite value is the truncation toward zero of the
rational number it denotes. -/
theorem integerPart_finite (m e : Int) :
    (if 0 ≤ e then m * 2 ^ e.toNat else Int.tdiv m (2 ^ (-e).toNat))
      = truncTowardZero ((m : ℚ) * (2 : ℚ) ^ e) := by
  unfold truncTowardZero
  split
  · rename_i h
    rw [rat_of_nonneg_exponent m e h]
    split
    · exact (Int.floor_intCast _).symm
    · exact (Int.ceil_intCast _).symm
  · rename_i h
    rw [rat_of_neg_exponent m e h]
    have hd : (0 : ℚ) < ((2 ^ (-e).toNat : ℕ) : ℚ) := by positivity
    have hcast : ((2 : ℤ) ^ (-e).toNat) = ((2 ^ (-e).toNat : ℕ) : ℤ) := by
      push_cast; rfl
    rw [hcast]
    generalize (2 ^ (-e).toNat : ℕ) = d at hd
    rcases le_or_lt 0 m with hm | hm
    · have : (0 : ℚ) ≤ (m : ℚ) / (d : ℚ) :=
        div_nonneg (by exact_mod_cast hm) hd.le
      rw [if_pos this, Rat.floor_intCast_div_natCast,
        Int.tdiv_eq_ediv hm (Int.natCast_nonneg d)]
    · have : ¬ (0 : ℚ) ≤ (m : ℚ) / (d : ℚ) := by
        rw [not_le]
        exact div_neg_of_neg_of_pos (by exact_mod_cast hm) hd
      rw [if_neg this]
      have h1 : (m : ℚ) / (d : ℚ) = -(((-m : ℤ) : ℚ) / (d : ℚ)) := by
        push_cast; ring
      rw [h1, Int.ceil_neg, Rat.floor_intCast_div_natCast,
        ← Int.tdiv_eq_ediv (by omega) (Int.natCast_nonneg d), Int.neg_tdiv, neg_neg]

theorem integerPart_eq (v : SampleValue) :
    v.integerPart = v.toRat?.map truncTowardZero := by
  cases v with
  | finite m e =>
    simp only [SampleValue.integerPart, SampleValue.toRat?, Option.map_some',
      integerPart_finite]
  | nan => rfl
  | posInf => rfl
  | negInf => rfl

/-- Go's conversion is truncation toward zero on the finite values whose
truncation fits in an `int`. -/
theorem goInt_of_fits {v : SampleValue} {q : ℚ} (hq : v.toRat? = some q)
    (hlo : minInt ≤ truncTowardZero q) (hhi : truncTowardZero q ≤ maxInt) :
    goInt v = truncTowardZero q := by
  unfold goInt
  rw [integerPart_eq, hq]
  simp only [Option.map_some']
  rw [if_pos ⟨hlo, hhi⟩]

theorem toRat?_ofInt (n : Int) : (SampleValue.ofInt n).toRat? = some (n : ℚ) := by
  simp [SampleValue.ofInt, SampleValue.toRat?]

theorem truncTowardZero_intCast (n : Int) : truncTowardZero (n : ℚ) = n := by
  unfold truncTowardZero
  split
  · exact Int.floor_intCast n
  · exact Int.ceil_intCast n

/-! ## Records of the result -/

theorem expectedRecord_key {cpu mem rep : Vector} {k : Key} {r : RequiredResources}
    (h : expectedRecord cpu mem rep k = some r) : r.key = k := by
  unfold expectedRecord at h
  cases hl : lastWith k rep with
  | none => simp [hl] at h
  | some s =>
    simp only [hl, Option.map_some', Option.some.injEq] at h
    subst h
    rfl

theorem expectedRecord_isSome (cpu mem rep : Vector) (k : Key) :
    (∃ r, expectedRecord cpu mem rep k = some r) ↔ k ∈ vectorKeys rep := by
  unfold expectedRecord
  cases hl : lastWith k rep with
  | none => simpa using (lastWith_eq_none_iff k rep).mp hl
  | some s =>
    have : ¬ (k ∉ vectorKeys rep) := fun hc => by
      rw [(lastWith_eq_none_iff k rep).mpr hc] at hl; cases hl
    simpa using this

/-- The record of a replica key in the returned list: it is the expected
record, it is in the list, and no other record of the list has its key. -/
theorem record_of_key {cpu mem rep : Vector} {rs : List RequiredResources}
    {err : Option GoError} (h : mapToRequiredResources cpu mem rep = .ok (rs, err))
    {k : Key} (hk : k ∈ vectorKeys rep) :
    ∃ r, expectedRecord cpu mem rep k = some r ∧ r ∈ rs ∧
      ∀ r' ∈ rs, r'.key = k → r' = r := by
  obtain ⟨_, hnd, hmem⟩ := mapToRequiredResources_spec h
  obtain ⟨r, hr⟩ := (expectedRecord_isSome cpu mem rep k).mpr hk
  refine ⟨r, hr, (hmem r).mpr ⟨k, hr⟩, fun r' hr' hkey => ?_⟩
  obtain ⟨k', hk'⟩ := (hmem r').mp hr'
  have : k' = k := (expectedRecord_key hk').symm.trans hkey
  subst this
  rw [hr] at hk'
  exact (Option.some.inj hk').symm

/-! ## Aggregation: the claims -/

/-- C1: when every CPU and memory sample carries an identity key of the
replica vector, `mapToRequiredResources` returns (with a nil error) a list
with exactly one record per distinct identity key of the replica vector: the
keys of the records are pairwise distinct, they are exactly the keys of the
replica samples, and the length of the list is the number of distinct replica
keys. -/
theorem C1_one_record_per_replica_key (cpu mem rep : Vector)
    (hcpu : ∀ s ∈ cpu, s.key ∈ vectorKeys rep) (hmem : ∀ s ∈ mem, s.key ∈ vectorKeys rep) :
    ∃ rs, mapToRequiredResources cpu mem rep = .ok (rs, none) ∧
      (rs.map RequiredResources.key).Nodup ∧
      (∀ k, k ∈ rs.map RequiredResources.key ↔ k ∈ vectorKeys rep) ∧
      rs.length = (vectorKeys rep).dedup.length := by
  obtain ⟨⟨rs, err⟩, h⟩ := (mapToRequiredResources_ok_iff cpu mem rep).mpr ⟨hcpu, hmem⟩
  obtain ⟨herr, hnd, hmemb⟩ := mapToRequiredResources_spec h
  simp only at herr hnd hmemb
  subst herr
  have hkeys : ∀ k, k ∈ rs.map RequiredResources.key ↔ k ∈ vectorKeys rep := by
    intro k
    rw [← expectedRecord_isSome cpu mem rep k, List.mem_map]
    constructor
    · rintro ⟨r, hr, rfl⟩
      obtain ⟨k', hk'⟩ := (hmemb r).mp hr
      exact ⟨r, (expectedRecord_key hk') ▸ hk'⟩
    · rintro ⟨r, hr⟩
      exact ⟨r, (hmemb r).mpr ⟨k, hr⟩, expectedRecord_key hr⟩
  refine ⟨rs, h, hnd, hkeys, ?_⟩
  have hperm : (rs.map RequiredResources.key).Perm (vectorKeys rep).dedup :=
    (List.perm_ext_iff_of_nodup hnd (List.nodup_dedup _)).mpr fun k => by
      rw [hkeys, List.mem_dedup]
  simpa using hperm.length_eq

/-- C1 at a replica vector that repeats a key: three replica samples, two
distinct keys, two records. -/
theorem C1_witness :
    (∀ s ∈ [sampleOf "a" "prod" "web" 150], s.key ∈ vectorKeys
        [sampleOf "a" "prod" "web" 3, sampleOf "b" "dev" "api" 1, sampleOf "a" "prod" "web" 4]) ∧
    (vectorKeys
        [sampleOf "a" "prod" "web" 3, sampleOf "b" "dev" "api" 1,
          sampleOf "a" "prod" "web" 4]).dedup.length = 2 ∧
    ∃ rs, mapToRequiredResources [sampleOf "a" "prod" "web" 150] []
        [sampleOf "a" "prod" "web" 3, sampleOf "b" "dev" "api" 1, sampleOf "a" "prod" "web" 4]
          = .ok (rs, none) ∧
      (rs.map RequiredResources.key).Nodup ∧
      (∀ k, k ∈ rs.map RequiredResources.key ↔ k ∈ vectorKeys
        [sampleOf "a" "prod" "web" 3, sampleOf "b" "dev" "api" 1, sampleOf "a" "prod" "web" 4]) ∧
      rs.length = (vectorKeys
        [sampleOf "a" "prod" "web" 3, sampleOf "b" "dev" "api" 1,
          sampleOf "a" "prod" "web" 4]).dedup.length :=
  ⟨by decide, by decide,
    C1_one_record_per_replica_key [sampleOf "a" "prod" "web" 150] []
      [sampleOf "a" "prod" "web" 3, sampleOf "b" "dev" "api" 1, sampleOf "a" "prod" "web" 4]
      (by decide) (by decide)⟩

/-- C2, as stated, fails: a CPU sample with the finite value `2 ^ 63`, whose
truncation toward zero is `2 ^ 63`, gives a record whose `CPUMillicore` is the
least `int`, since `2 ^ 63` does not fit in Go's 64-bit `int`. -/
theorem C2_counterexample :
    mapToRequiredResources [sampleWith "a" "prod" "web" (.finite 1 63)] []
        [sampleOf "a" "prod" "web" 3]
      = .ok ([{ Application := "a", Environment := "prod", Component := "web",
                CPUMillicore := -9223372036854775808, MemoryMegaBytes := 0,
                Replicas := 3 }], none) ∧
    lastWith ("a", "prod", "web") [sampleWith "a" "prod" "web" (.finite 1 63)]
      = some (sampleWith "a" "prod" "web" (.finite 1 63)) ∧
    (SampleValue.finite 1 63).toRat? = some ((1 : ℚ) * (2 : ℚ) ^ (63 : ℤ)) ∧
    truncTowardZero ((1 : ℚ) * (2 : ℚ) ^ (63 : ℤ)) = 9223372036854775808 := by
  refine ⟨by decide, by decide, rfl, ?_⟩
  have h := integerPart_finite 1 63
  rw [Int.cast_one] at h
  rw [← h]
  decide

/-- C2, amended: whenever `mapToRequiredResources` returns, every identity key
`k` of the replica vector has exactly one record in the result; its `Replicas`
is Go's `int` of the value of the last replica sample carrying `k`, and when
the CPU (memory) vector has a sample carrying `k`, its `CPUMillicore`
(`MemoryMegaBytes`) is Go's `int` of the value of the last such sample; that
is the truncation toward zero of the value whenever the value is finite and
its truncation lies within the 64-bit `int` range. -/
theorem C2_fields_from_last_samples (cpu mem rep : Vector) (rs : List RequiredResources)
    (err : Option GoError) (h : mapToRequiredResources cpu mem rep = .ok (rs, err))
    (k : Key) (hk : k ∈ vectorKeys rep) :
    ∃ r, r ∈ rs ∧ r.key = k ∧ (∀ r' ∈ rs, r'.key = k → r' = r) ∧
      (∃ s, lastWith k rep = some s ∧ r.Replicas = goInt s.Value ∧
        ∀ q, s.Value.toRat? = some q → minInt ≤ truncTowardZero q →
          truncTowardZero q ≤ maxInt → r.Replicas = truncTowardZero q) ∧
      (∀ s, lastWith k cpu = some s → r.CPUMillicore = goInt s.Value ∧
        ∀ q, s.Value.toRat? = some q → minInt ≤ truncTowardZero q →
          truncTowardZero q ≤ maxInt → r.CPUMillicore = truncTowardZero q) ∧
      (∀ s, lastWith k mem = some s → r.MemoryMegaBytes = goInt s.Value ∧
        ∀ q, s.Value.toRat? = some q → minInt ≤ truncTowardZero q →
          truncTowardZero q ≤ maxInt → r.MemoryMegaBytes = truncTowardZero q) := by
  obtain ⟨r, hr, hin, huniq⟩ := record_of_key h hk
  refine ⟨r, hin, expectedRecord_key hr, huniq, ?_⟩
  unfold expectedRecord at hr
  cases hl : lastWith k rep with
  | none => simp [hl] at hr
  | some s =>
    simp only [hl, Option.map_some', Option.some.injEq] at hr
    subst hr
    refine ⟨⟨s, rfl, rfl, fun q hq hlo hhi => goInt_of_fits hq hlo hhi⟩,
      fun t ht => ?_, fun t ht => ?_⟩
    · have e : lastValue k cpu = goInt t.Value := by simp [lastValue, ht]
      exact ⟨e, fun q hq hlo hhi => e.trans (goInt_of_fits hq hlo hhi)⟩
    · have e : lastValue k mem = goInt t.Value := by simp [lastValue, ht]
      exact ⟨e, fun q hq hlo hhi => e.trans (goInt_of_fits hq hlo hhi)⟩

/-- C2 at the scenario of the specification: replicas `[{a,prod,web,3}]`, CPU
`[{a,prod,web,150}]`, no memory sample; the result is the single record
`{a,prod,web,cpu=150,mem=0,replicas=3}`, and the values `3` and `150` are
finite with their truncations `3` and `150` within the `int` range. -/
theorem C2_witness :
    mapToRequiredResources [sampleOf "a" "prod" "web" 150] [] [sampleOf "a" "prod" "web" 3]
      = .ok ([{ Application := "a", Environment := "prod", Component := "web",
                CPUMillicore := 150, MemoryMegaBytes := 0, Replicas := 3 }], none) ∧
    ((sampleOf "a" "prod" "web" 3).Value.toRat? = some 3 ∧
      truncTowardZero 3 = 3 ∧ minInt ≤ 3 ∧ 3 ≤ maxInt) ∧
    ((sampleOf "a" "prod" "web" 150).Value.toRat? = some 150 ∧
      truncTowardZero 150 = 150 ∧ minInt ≤ 150 ∧ 150 ≤ maxInt) ∧
    ∃ r, r ∈ [webRecord] ∧
      r.key = ("a", "prod", "web") ∧
      (∀ r' ∈ [webRecord], r'.key = ("a", "prod", "web") → r' = r) ∧
      (∃ s, lastWith ("a", "prod", "web") [sampleOf "a" "prod" "web" 3] = some s ∧
        r.Replicas = goInt s.Value ∧
        ∀ q, s.Value.toRat? = some q → minInt ≤ truncTowardZero q →
          truncTowardZero q ≤ maxInt → r.Replicas = truncTowardZero q) ∧
      (∀ s, lastWith ("a", "prod", "web") [sampleOf "a" "prod" "web" 150] = some s →
        r.CPUMillicore = goInt s.Value ∧
        ∀ q, s.Value.toRat? = some q → minInt ≤ truncTowardZero q →
          truncTowardZero q ≤ maxInt → r.CPUMillicore = truncTowardZero q) ∧
      (∀ s, lastWith ("a", "prod", "web") [] = some s →
        r.MemoryMegaBytes = goInt s.Value ∧
        ∀ q, s.Value.toRat? = some q → minInt ≤ truncTowardZero q →
          truncTowardZero q ≤ maxInt → r.MemoryMegaBytes = truncTowardZero q) :=
  ⟨by decide,
    ⟨by simpa using toRat?_ofInt 3, by simpa using truncTowardZero_intCast 3,
      by decide, by decide⟩,
    ⟨by simpa using toRat?_ofInt 150, by simpa using truncTowardZero_intCast 150,
      by decide, by decide⟩,
    C2_fields_from_last_samples [sampleOf "a" "prod" "web" 150] []
      [sampleOf "a" "prod" "web" 3] _ none (by decide) ("a", "prod", "web") (by decide)⟩

/-- C3: whenever `mapToRequiredResources` returns, the one record of a replica
key `k` has `CPUMillicore = 0` when no CPU sample carries `k` and
`MemoryMegaBytes = 0` when no memory sample carries `k` (so both are zero when
`k` is absent from both vectors). -/
theorem C3_absent_fields_are_zero (cpu mem rep : Vector) (rs : List RequiredResources)
    (err : Option GoError) (h : mapToRequiredResources cpu mem rep = .ok (rs, err))
    (k : Key) (hk : k ∈ vectorKeys rep) :
    ∃ r, r ∈ rs ∧ r.key = k ∧ (∀ r' ∈ rs, r'.key = k → r' = r) ∧
      (k ∉ vectorKeys cpu → r.CPUMillicore = 0) ∧
      (k ∉ vectorKeys mem → r.MemoryMegaBytes = 0) := by
  obtain ⟨r, hr, hin, huniq⟩ := record_of_key h hk
  refine ⟨r, hin, expectedRecord_key hr, huniq, ?_⟩
  unfold expectedRecord at hr
  cases hl : lastWith k rep with
  | none => simp [hl] at hr
  | some s =>
    simp only [hl, Option.map_some', Option.some.injEq] at hr
    subst hr
    refine ⟨fun hc => ?_, fun hm => ?_⟩
    · simp [lastValue, (lastWith_eq_none_iff k cpu).mpr hc]
    · simp [lastValue, (lastWith_eq_none_iff k mem).mpr hm]

/-- C3 at a replica vector with the keys `a/prod/web` and `b/dev/api`, of
which only the first has a CPU sample: the record of `b/dev/api` has zero CPU
and zero memory. -/
theorem C3_witness :
    mapToRequiredResources [sampleOf "a" "prod" "web" 150] []
        [sampleOf "a" "prod" "web" 3, sampleOf "b" "dev" "api" 2]
      = .ok ([{ Application := "a", Environment := "prod", Component := "web",
                CPUMillicore := 150, Replicas := 3 },
              { Application := "b", Environment := "dev", Component := "api",
                Replicas := 2 }], none) ∧
    ("b", "dev", "api") ∉ vectorKeys [sampleOf "a" "prod" "web" 150] ∧
    ∃ r, r ∈ [webRecord, apiRecord] ∧
      r.key = ("b", "dev", "api") ∧
      (∀ r' ∈ [webRecord, apiRecord], r'.key = ("b", "dev", "api") → r' = r) ∧
      (("b", "dev", "api") ∉ vectorKeys [sampleOf "a" "prod" "web" 150] →
        r.CPUMillicore = 0) ∧
      (("b", "dev", "api") ∉ vectorKeys [] → r.MemoryMegaBytes = 0) :=
  ⟨by decide, by decide,
    C3_absent_fields_are_zero [sampleOf "a" "prod" "web" 150] []
      [sampleOf "a" "prod" "web" 3, sampleOf "b" "dev" "api" 2] _ none (by decide)
      ("b", "dev", "api") (by decide)⟩

/-- C4, as stated, fails: with an empty replica vector and one CPU sample the
function does not return the empty list, it ends in a nil dereference. -/
theorem C4_counterexample :
    mapToRequiredResources [sampleOf "a" "prod" "web" 150] [] []
        = .error Panic.nilDereference ∧
    mapToRequiredResources [sampleOf "a" "prod" "web" 150] [] [] ≠ .ok ([], none) := by
  decide

/-- C4, amended: with an empty replica vector, `mapToRequiredResources`
returns the empty list and a nil error exactly when the CPU and the memory
vector are empty as well; when one of them has a sample, the call ends in a
nil dereference. -/
theorem C4_empty_replica_vector (cpu mem : Vector) :
    (mapToRequiredResources cpu mem [] = .ok ([], none) ↔ cpu = [] ∧ mem = []) ∧
    ((cpu ≠ [] ∨ mem ≠ []) → mapToRequiredResources cpu mem [] = .error Panic.nilDereference) := by
  have key : (cpu ≠ [] ∨ mem ≠ []) →
      mapToRequiredResources cpu mem [] = .error Panic.nilDereference := by
    intro hne
    cases hres : mapToRequiredResources cpu mem [] with
    | error p => cases p; rfl
    | ok out =>
      have := (mapToRequiredResources_ok_iff cpu mem []).mp ⟨out, hres⟩
      simp only [vectorKeys, List.map_nil, List.not_mem_nil, imp_false] at this
      rcases hne with hc | hm
      · exact absurd (List.eq_nil_iff_forall_not_mem.mpr this.1) hc
      · exact absurd (List.eq_nil_iff_forall_not_mem.mpr this.2) hm
  refine ⟨⟨fun h => ?_, ?_⟩, key⟩
  · by_contra hne
    have := key (by tauto)
    rw [h] at this
    cases this
  · rintro ⟨rfl, rfl⟩
    rfl

/-- C10: `mapToRequiredResources` returns exactly when every CPU sample and
every memory sample carries an identity key of the replica vector, and then
its error is nil; otherwise a sample with a key unknown to the replica vector
is not skipped: the call ends in a nil dereference. -/
theorem C10_returns_iff_keys_known (cpu mem rep : Vector) :
    ((∃ out, mapToRequiredResources cpu mem rep = .ok out) ↔
      (∀ s ∈ cpu, s.key ∈ vectorKeys rep) ∧ (∀ s ∈ mem, s.key ∈ vectorKeys rep)) ∧
    (∀ out, mapToRequiredResources cpu mem rep = .ok out → out.2 = none) ∧
    (¬ ((∀ s ∈ cpu, s.key ∈ vectorKeys rep) ∧ (∀ s ∈ mem, s.key ∈ vectorKeys rep)) →
      mapToRequiredResources cpu mem rep = .error Panic.nilDereference) := by
  refine ⟨mapToRequiredResources_ok_iff cpu mem rep,
    fun out h => (mapToRequiredResources_spec h).1, fun hn => ?_⟩
  cases hres : mapToRequiredResources cpu mem rep with
  | error p => cases p; rfl
  | ok out => exact absurd ((mapToRequiredResources_ok_iff cpu mem rep).mp ⟨out, hres⟩) hn

/-! ## Reconstruction of runs -/

theorem rowsOf_append (i : Int) (pre : List ResultRow) (row : ResultRow) :
    rowsOf i (pre ++ [row]) = rowsOf i pre ++ (if row.run_id = i then [row] else []) := by
  unfold rowsOf
  by_cases h : row.run_id = i <;> simp [List.filter_append, List.filter_cons, h]

theorem rowsOf_eq_nil {i : Int} {pre : List ResultRow} (h : i ∉ rowIds pre) :
    rowsOf i pre = [] := by
  unfold rowsOf
  rw [List.filter_eq_nil_iff]
  intro row hrow
  simp only [decide_eq_true_eq]
  intro hc
  exact h (List.mem_map.mpr ⟨row, hrow, hc⟩)

theorem mem_rowIds_append (i : Int) (pre : List ResultRow) (row : ResultRow) :
    i ∈ rowIds (pre ++ [row]) ↔ i ∈ rowIds pre ∨ i = row.run_id := by
  simp [rowIds, eq_comm]

theorem rowsOf_ne_nil {i : Int} {pre : List ResultRow} (h : i ∈ rowIds pre) :
    ∃ row rest, rowsOf i pre = row :: rest := by
  obtain ⟨row, hrow, hid⟩ := List.mem_map.mp h
  have : row ∈ rowsOf i pre := List.mem_filter.mpr ⟨hrow, by simpa using hid⟩
  cases hl : rowsOf i pre with
  | nil => rw [hl] at this; cases this
  | cons a l => exact ⟨a, l, rfl⟩

theorem scanInv_nil : ScanInv [] {} where
  nodup := List.nodup_nil
  origin := fun i run h => by simp [GoMap.lookup] at h
  present := fun i h => by simp [rowIds] at h
  first := fun i _ row h => by simp [rowsOf] at h
  resources := fun i _ h => by simp [rowIds] at h

/-- One iteration keeps the invariant and does not panic. -/
theorem scanInv_step {pre : List ResultRow} {maps : RunMaps} (inv : ScanInv pre maps)
    (row : ResultRow) : ∃ maps', scanRow maps row = .ok maps' ∧ ScanInv (pre ++ [row]) maps' := by
  unfold scanRow
  simp only
  by_cases h0 : ((GoMap.lookup maps.runs row.run_id).getD {}).ID = 0
  · -- the row opens (or, for the identifier 0, reopens) its run
    rw [if_pos h0]
    have hfresh : row.run_id ≠ 0 → row.run_id ∉ rowIds pre := by
      intro hne hmem
      obtain ⟨run, hrun⟩ := Option.isSome_iff_exists.mp (inv.present _ hmem).1
      obtain ⟨r0, _, hid, hr0⟩ := inv.origin _ _ hrun
      rw [hrun, Option.getD_some, hr0] at h0
      exact hne (hid ▸ h0)
    refine ⟨_, rfl, ?_⟩
    constructor
    · exact GoMap.nodup_keys_store _ _ inv.nodup
    · intro i run hl
      by_cases hi : row.run_id = i
      · subst hi
        rw [GoMap.lookup_store_self] at hl
        exact ⟨row, by simp, rfl, (Option.some.inj hl).symm⟩
      · rw [GoMap.lookup_store_ne _ _ hi] at hl
        obtain ⟨r0, hr0, hid, hrun⟩ := inv.origin i run hl
        exact ⟨r0, List.mem_append_left _ hr0, hid, hrun⟩
    · intro i hmem
      by_cases hi : row.run_id = i
      · subst hi
        simp [GoMap.lookup_store_self]
      · rw [GoMap.lookup_store_ne _ _ hi, GoMap.lookup_store_ne _ _ hi]
        rcases (mem_rowIds_append i pre row).mp hmem with h | h
        · exact inv.present i h
        · exact absurd h.symm hi
    · intro i hne r0 hhead
      rw [rowsOf_append] at hhead
      by_cases hi : row.run_id = i
      · subst hi
        rw [rowsOf_eq_nil (hfresh hne)] at hhead
        simp only [if_true, List.nil_append, List.head?_cons, Option.some.injEq] at hhead
        subst hhead
        exact GoMap.lookup_store_self _ _ _
      · rw [if_neg hi, List.append_nil] at hhead
        rw [GoMap.lookup_store_ne _ _ hi]
        exact inv.first i hne r0 hhead
    · intro i hne hmem
      rw [rowsOf_append]
      by_cases hi : row.run_id = i
      · subst hi
        rw [rowsOf_eq_nil (hfresh hne), GoMap.lookup_store_self]
        simp
      · rw [if_neg hi, List.append_nil, GoMap.lookup_store_ne _ _ hi]
        rcases (mem_rowIds_append i pre row).mp hmem with h | h
        · exact inv.resources i hne h
        · exact absurd h.symm hi
  · -- the row joins the run opened by an earlier row
    rw [if_neg h0]
    obtain ⟨run, hrun⟩ : ∃ run, GoMap.lookup maps.runs row.run_id = some run := by
      cases hl : GoMap.lookup maps.runs row.run_id with
      | none => rw [hl] at h0; exact absurd rfl h0
      | some run => exact ⟨run, rfl⟩
    obtain ⟨r0, hr0, hid, hrun0⟩ := inv.origin _ _ hrun
    have hne0 : row.run_id ≠ 0 := by
      intro hc
      rw [hrun, Option.getD_some, hrun0] at h0
      exact h0 (hid.trans hc)
    have hmem0 : row.run_id ∈ rowIds pre := List.mem_map.mpr ⟨r0, hr0, hid⟩
    rw [inv.resources _ hne0 hmem0]
    refine ⟨_, rfl, ?_⟩
    constructor
    · exact inv.nodup
    · intro i run' hl
      obtain ⟨r1, hr1, hid1, hrun1⟩ := inv.origin i run' hl
      exact ⟨r1, List.mem_append_left _ hr1, hid1, hrun1⟩
    · intro i hmem
      have hi : i ∈ rowIds pre := by
        rcases (mem_rowIds_append i pre row).mp hmem with h | h
        · exact h
        · exact h ▸ hmem0
      refine ⟨(inv.present i hi).1, ?_⟩
      by_cases hi' : row.run_id = i
      · subst hi'; simp [GoMap.lookup_store_self]
      · simpa [GoMap.lookup_store_ne _ _ hi'] using (inv.present i hi).2
    · intro i hne r1 hhead
      rw [rowsOf_append] at hhead
      by_cases hi : row.run_id = i
      · subst hi
        obtain ⟨a, l, hal⟩ := rowsOf_ne_nil hmem0
        rw [hal] at hhead
        simp only [List.cons_append, List.head?_cons, Option.some.injEq] at hhead
        subst hhead
        exact inv.first _ hne a (by rw [hal]; rfl)
      · rw [if_neg hi, List.append_nil] at hhead
        exact inv.first i hne r1 hhead
    · intro i hne hmem
      rw [rowsOf_append]
      by_cases hi : row.run_id = i
      · subst hi
        simp [GoMap.lookup_store_self]
      · have hi' : i ∈ rowIds pre := by
          rcases (mem_rowIds_append i pre row).mp hmem with h | h
          · exact h
          · exact absurd h.symm hi
        simpa [GoMap.lookup_store_ne _ _ hi, hi] using inv.resources i hne hi'

/-- The loop over the rows keeps the invariant and does not panic. -/
theorem scanInv_scanRows {pre : List ResultRow} {maps : RunMaps} (inv : ScanInv pre maps)
    (rows : List ResultRow) :
    ∃ maps', scanRows maps rows = .ok maps' ∧ ScanInv (pre ++ rows) maps' := by
  induction rows generalizing pre maps with
  | nil => exact ⟨maps, rfl, by simpa using inv⟩
  | cons row rest ih =>
    obtain ⟨maps1, h1, inv1⟩ := scanInv_step inv row
    obtain ⟨maps2, h2, inv2⟩ := ih inv1
    refine ⟨maps2, ?_, by simpa using inv2⟩
    simp only [scanRows, h1, h2]

theorem collectRuns_ok (runsResources : GoMap Int (List RequiredResources))
    (runs : GoMap Int Run)
    (h : ∀ p ∈ runs, (GoMap.lookup runsResources p.1).isSome = true) :
    collectRuns runsResources runs = .ok (runs.map fun p =>
      { p.2 with Resources := (GoMap.lookup runsResources p.1).getD [] }) := by
  induction runs with
  | nil => rfl
  | cons p rest ih =>
    obtain ⟨key, val⟩ := p
    obtain ⟨rs, hrs⟩ := Option.isSome_iff_exists.mp (h (key, val) (by simp))
    have := ih fun q hq => h q (List.mem_cons_of_mem _ hq)
    simp only [collectRuns, hrs, this, List.map_cons, Option.getD_some]

theorem length_rowsOf (i : Int) (rows : List ResultRow) :
    (rowsOf i rows).length = List.count i (rowIds rows) := by
  induction rows with
  | nil => rfl
  | cons row rest ih =>
    simp only [rowsOf, rowIds] at ih
    by_cases h : row.run_id = i
    · simp [rowsOf, rowIds, List.filter_cons, h, ih]
    · simp [rowsOf, rowIds, List.filter_cons, h, ih, List.count_cons]

/-- What the reconstruction returns for any list of result rows. -/
theorem reconstructRuns_spec (rows : List ResultRow) :
    ∃ runs, reconstructRuns rows = .ok runs ∧
      (runs.map Run.ID).Nodup ∧
      (∀ i, i ∈ runs.map Run.ID ↔ i ∈ rowIds rows) ∧
      (∀ run ∈ runs, ∃ row ∈ rows, row.run_id = run.ID ∧
        { run with Resources := [] } = row.run) ∧
      (∀ run ∈ runs, run.ID ≠ 0 →
        run.Resources = (rowsOf run.ID rows).map ResultRow.resource ∧
        ∃ row, (rowsOf run.ID rows).head? = some row ∧
          { run with Resources := [] } = row.run) := by
  obtain ⟨maps, hscan, inv⟩ := scanInv_scanRows scanInv_nil rows
  simp only [List.nil_append] at inv
  have hkey : ∀ p ∈ maps.runs, ∃ row ∈ rows, row.run_id = p.1 ∧ p.2 = row.run :=
    fun p hp => inv.origin p.1 p.2 (GoMap.lookup_of_mem inv.nodup hp)
  have hpres : ∀ p ∈ maps.runs, p.1 ∈ rowIds rows := fun p hp => by
    obtain ⟨row, hrow, hid, _⟩ := hkey p hp
    exact List.mem_map.mpr ⟨row, hrow, hid⟩
  have hcollect := collectRuns_ok maps.runsResources maps.runs
    fun p hp => (inv.present p.1 (hpres p hp)).2
  have hids : (maps.runs.map fun p =>
      ({ p.2 with Resources := (GoMap.lookup maps.runsResources p.1).getD [] } : Run)).map
        Run.ID = GoMap.keys maps.runs := by
    simp only [List.map_map, GoMap.keys]
    refine List.map_congr_left fun p hp => ?_
    obtain ⟨row, _, hid, hrun⟩ := hkey p hp
    simp [hrun, ResultRow.run, hid]
  have hrec : reconstructRuns rows = .ok (maps.runs.map fun p =>
      { p.2 with Resources := (GoMap.lookup maps.runsResources p.1).getD [] }) := by
    simp only [reconstructRuns, hscan]
    exact hcollect
  refine ⟨_, hrec, ?_, ?_, ?_, ?_⟩
  · rw [hids]; exact inv.nodup
  · intro i
    rw [hids]
    constructor
    · intro hi
      obtain ⟨p, hp, rfl⟩ := List.mem_map.mp hi
      exact hpres p hp
    · intro hi
      by_contra hc
      have hnone := (GoMap.lookup_eq_none_iff maps.runs i).mpr hc
      have hsome := (inv.present i hi).1
      simp [hnone] at hsome
  · intro run hrun
    obtain ⟨p, hp, rfl⟩ := List.mem_map.mp hrun
    obtain ⟨row, hrow, hid, hpr⟩ := hkey p hp
    exact ⟨row, hrow, by simp [hpr, ResultRow.run, hid], by simp [hpr, ResultRow.run]⟩
  · intro run hrun hne
    obtain ⟨p, hp, rfl⟩ := List.mem_map.mp hrun
    obtain ⟨row, hrow, hid, hpr⟩ := hkey p hp
    have hID : p.2.ID = p.1 := by simp [hpr, ResultRow.run, hid]
    have hne' : p.1 ≠ 0 := hID ▸ hne
    obtain ⟨a, l, hal⟩ := rowsOf_ne_nil (hpres p hp)
    have h1 := inv.first p.1 hne' a (by rw [hal]; rfl)
    rw [GoMap.lookup_of_mem inv.nodup hp] at h1
    have h2 : p.2 = a.run := Option.some.inj h1
    simp only [hID]
    refine ⟨by simp [inv.resources p.1 hne' (hpres p hp)], a, by rw [hal]; rfl, ?_⟩
    rw [← hID, h2]
    rfl

/-! ## Run store: the claims -/

/-- C5, as stated, fails: of two result rows with the run identifier `0`, the
reconstruction keeps only the resource of the second, so a resource is lost
and the returned runs hold one resource for two rows. -/
theorem C5_counterexample :
    reconstructRuns
        [⟨0, 10, 100, 200, 1, "w", "a", "prod", "web", 150, 64, 3⟩,
         ⟨0, 10, 100, 200, 2, "w", "b", "dev", "api", 20, 32, 2⟩]
      = .ok [{ ID := 0, MeasuredTimeUTC := 10, ClusterCPUMillicore := 100,
               ClusterMemoryMegaByte := 200,
               Resources := [{ ID := 2, WBS := "w", Application := "b", Environment := "dev",
                               Component := "api", CPUMillicore := 20,
                               MemoryMegaBytes := 32, Replicas := 2 }] }] := by
  decide

/-- C5, amended: for every list of result rows, in any order, the
reconstruction returns (without a panic) exactly one run per distinct run
identifier of the rows; every returned run with a non-zero identifier carries
the timestamp and cluster totals of the first row of its identifier and, as
`Resources`, exactly the resources of all rows of its identifier, in row
order; and when no row has the run identifier `0`, the resources of all
returned runs together are as many as the rows. -/
theorem C5_runs_from_rows (rows : List ResultRow) :
    ∃ runs, reconstructRuns rows = .ok runs ∧
      (runs.map Run.ID).Nodup ∧
      (∀ i, i ∈ runs.map Run.ID ↔ i ∈ rowIds rows) ∧
      (∀ run ∈ runs, run.ID ≠ 0 →
        run.Resources = (rowsOf run.ID rows).map ResultRow.resource ∧
        ∃ row, (rowsOf run.ID rows).head? = some row ∧
          run.MeasuredTimeUTC = row.measured_time_utc ∧
          run.ClusterCPUMillicore = row.cluster_cpu_millicores ∧
          run.ClusterMemoryMegaByte = row.cluster_memory_mega_bytes) ∧
      (0 ∉ rowIds rows → (runs.map fun run => run.Resources.length).sum = rows.length) := by
  obtain ⟨runs, hok, hnd, hids, _, hres⟩ := reconstructRuns_spec rows
  refine ⟨runs, hok, hnd, hids, fun run hrun hne => ?_, fun h0 => ?_⟩
  · obtain ⟨h1, row, hhead, hrow⟩ := hres run hrun hne
    refine ⟨h1, row, hhead, ?_⟩
    have e1 := congrArg Run.MeasuredTimeUTC hrow
    have e2 := congrArg Run.ClusterCPUMillicore hrow
    have e3 := congrArg Run.ClusterMemoryMegaByte hrow
    exact ⟨e1, e2, e3⟩
  · have hlen : (runs.map fun run => run.Resources.length)
        = (runs.map Run.ID).map fun i => List.count i (rowIds rows) := by
      rw [List.map_map]
      refine List.map_congr_left fun run hrun => ?_
      have hne : run.ID ≠ 0 := fun hc =>
        h0 (hc ▸ (hids run.ID).mp (List.mem_map.mpr ⟨run, hrun, rfl⟩))
      simp [(hres run hrun hne).1, length_rowsOf]
    have hperm : (runs.map Run.ID).Perm (rowIds rows).dedup :=
      (List.perm_ext_iff_of_nodup hnd (List.nodup_dedup _)).mpr fun i => by
        rw [hids, List.mem_dedup]
    rw [hlen, (hperm.map _).sum_eq, List.sum_map_count_dedup_eq_length]
    simp [rowIds]

/-- C5 at five rows of the runs `1` and `2`, interleaved: run `1` gets the
resources `1, 3, 5`, run `2` the resources `2, 4`. -/
theorem C5_witness :
    (reconstructRuns interleavedRows).map
        (fun runs => runs.map fun run => (run.ID, run.Resources.map fun r => r.ID))
      = .ok [(1, [1, 3, 5]), (2, [2, 4])] ∧
    ∃ runs, reconstructRuns interleavedRows = .ok runs ∧
      (runs.map Run.ID).Nodup ∧
      (∀ i, i ∈ runs.map Run.ID ↔ i ∈ rowIds interleavedRows) ∧
      (∀ run ∈ runs, run.ID ≠ 0 →
        run.Resources = (rowsOf run.ID interleavedRows).map ResultRow.resource ∧
        ∃ row, (rowsOf run.ID interleavedRows).head? = some row ∧
          run.MeasuredTimeUTC = row.measured_time_utc ∧
          run.ClusterCPUMillicore = row.cluster_cpu_millicores ∧
          run.ClusterMemoryMegaByte = row.cluster_memory_mega_bytes) ∧
      (0 ∉ rowIds interleavedRows →
        (runs.map fun run => run.Resources.length).sum = interleavedRows.length) :=
  ⟨by decide, C5_runs_from_rows interleavedRows⟩

/-! ## The statements of the run store -/

theorem verifyConnection_nil (c : SQLClient) (hc : c.db = none) (d : Database) :
    verifyConnection c d = (some "CreateRun: db is null", {}, d) := by
  unfold verifyConnection
  rw [hc]

theorem verifyConnection_alive (c : SQLClient) (hc : c.db = some ()) (d : Database)
    (hp : (d.outcomes.headD {}).ping = true) :
    verifyConnection c d =
      (none, d.outcomes.headD {}, { d with outcomes := d.outcomes.tail }) := by
  unfold verifyConnection
  rw [hc]
  simp only [hp, if_true]

theorem verifyConnection_dead (c : SQLClient) (hc : c.db = some ()) (d : Database)
    (hp : (d.outcomes.headD {}).ping = false) :
    verifyConnection c d =
      (some "ping: connection is not alive", d.outcomes.headD {},
        { d with outcomes := d.outcomes.tail }) := by
  unfold verifyConnection
  rw [hc]
  simp only [hp, Bool.false_eq_true, if_false]

theorem execSQL_nil (c : SQLClient) (hc : c.db = none) (tsql : Insert) (d : Database) :
    execSQL c tsql d = ((-1, some "CreateRun: db is null"), d) := by
  unfold execSQL
  rw [verifyConnection_nil c hc]

theorem execSQL_ping_fails (c : SQLClient) (tsql : Insert) (d : Database)
    (hp : c.db = none ∨ (d.outcomes.headD {}).ping = false) :
    ∃ err, (execSQL c tsql d).1 = (-1, some err) ∧
      (execSQL c tsql d).2.issued = d.issued ∧ (execSQL c tsql d).2.runs = d.runs ∧
      (execSQL c tsql d).2.required_resources = d.required_resources := by
  cases hc : c.db with
  | none => rw [execSQL_nil c hc]; exact ⟨_, rfl, rfl, rfl, rfl⟩
  | some u =>
    have hp' : (d.outcomes.headD {}).ping = false := by
      rcases hp with h | h
      · rw [hc] at h; cases h
      · exact h
    unfold execSQL
    rw [verifyConnection_dead c hc d hp']
    exact ⟨_, rfl, rfl, rfl, rfl⟩

theorem execSQL_fails (c : SQLClient) (hc : c.db = some ()) (tsql : Insert) (d : Database)
    (hf : (d.outcomes.headD {}).succeeds = false) :
    ∃ err, execSQL c tsql d = ((-1, some err),
      { d with outcomes := d.outcomes.tail,
               issued :=
                 if (d.outcomes.headD {}).ping && (d.outcomes.headD {}).prepare
                 then d.issued ++ [Statement.insert tsql] else d.issued }) := by
  unfold execSQL verifyConnection
  rw [hc]
  generalize d.outcomes.headD {} = o at hf ⊢
  obtain ⟨p, pr, q⟩ := o
  cases p <;> cases pr <;> cases q <;>
    first
    | exact absurd hf (by decide)
    | exact ⟨_, by simp⟩
    | exact ⟨_, rfl⟩

theorem execSQL_succeeds (c : SQLClient) (hc : c.db = some ()) (tsql : Insert) (d : Database)
    (hs : (d.outcomes.headD {}).succeeds = true) :
    execSQL c tsql d =
      (((Database.insert { d with outcomes := d.outcomes.tail,
                                  issued := d.issued ++ [Statement.insert tsql] } tsql).1, none),
       (Database.insert { d with outcomes := d.outcomes.tail,
                                 issued := d.issued ++ [Statement.insert tsql] } tsql).2) := by
  simp only [Outcome.succeeds, Bool.and_eq_true] at hs
  unfold execSQL
  rw [verifyConnection_alive c hc d hs.1.1]
  simp only [hs.1.2, hs.2, if_true]

theorem headD_succeeds_of_take {outcomes : List Outcome} {n : Nat}
    (h : ∀ o ∈ outcomes.take (n + 1), o.succeeds = true) :
    (outcomes.headD {}).succeeds = true := by
  cases outcomes with
  | nil => rfl
  | cons o rest => exact h o (by simp)

/-- The loop of `SaveRequiredResources` over records whose inserts succeed. -/
theorem saveLoop_append (c : SQLClient) (hc : c.db = some ()) (runID : Int)
    (pre rest : List RequiredResources) (d : Database)
    (hs : ∀ o ∈ d.outcomes.take pre.length, o.succeeds = true) :
    saveLoop c runID (pre ++ rest) d = saveLoop c runID rest (d.afterInserts runID pre) := by
  induction pre generalizing d with
  | nil =>
    simp [Database.afterInserts, insertedRows, insertsOf]
  | cons req pre ih =>
    have h1 := execSQL_succeeds c hc (insertOf runID req) d (headD_succeeds_of_take hs)
    simp only [List.cons_append, saveLoop, h1]
    change saveLoop c runID (pre ++ rest) _ = _
    rw [ih]
    · congr 1
      simp only [Database.afterInserts, Database.insert, insertOf, insertedRows, insertsOf,
        List.length_cons, List.map_cons, List.append_assoc, List.singleton_append,
        List.drop_succ_cons, List.tail_drop]
      congr 1
      · push_cast; ring
      · cases d.outcomes <;> simp
    · intro o ho
      refine hs o ?_
      cases hd : d.outcomes with
      | nil => simp [Database.insert, insertOf, hd] at ho
      | cons o' os =>
        simp only [Database.insert, insertOf, hd, List.tail_cons] at ho
        simp only [List.length_cons, List.take_succ_cons, List.mem_cons]
        exact Or.inr ho

theorem length_insertedRows (runID firstId : Int) (reqs : List RequiredResources) :
    (insertedRows runID firstId reqs).length = reqs.length := by
  induction reqs generalizing firstId with
  | nil => rfl
  | cons req rest ih => simp [insertedRows, ih]

theorem take_replicate_append (n : Nat) (o : Outcome) (rest : List Outcome) :
    (List.replicate n Outcome.ok ++ o :: rest).take n = List.replicate n Outcome.ok :=
  List.take_left' (by simp)

theorem drop_replicate_append (n : Nat) (o : Outcome) (rest : List Outcome) :
    (List.replicate n Outcome.ok ++ o :: rest).drop n = o :: rest :=
  List.drop_left' (by simp)

/-- C8: `SaveRequiredResources` inserts record by record.  On a live
connection, when the inserts of the records `pre` succeed and the insert of the
next record `r` fails, it returns an error, the table has gained exactly the
rows of `pre`, in order and with `run_id = run.ID`, and the only statements
issued are the inserts of `pre` (and of `r` itself, when the failure is that of
its execution): none for the records after `r`.  When all inserts succeed it
returns nil and the table has gained exactly the rows of all records.  With a
nil handle the first insert fails: an error is returned and nothing is issued
or inserted. -/
theorem C8_record_by_record (c : SQLClient) (run : Run) (d : Database) :
    (c.db = some () → ∀ pre r post o rest, run.Resources = pre ++ r :: post →
        d.outcomes = List.replicate pre.length Outcome.ok ++ o :: rest → o.succeeds = false →
        ∃ err, (SaveRequiredResources c run d).1 = some err ∧
          (SaveRequiredResources c run d).2.required_resources =
            d.required_resources ++ insertedRows run.ID d.requiredResourcesIdentity pre ∧
          (SaveRequiredResources c run d).2.runs = d.runs ∧
          (SaveRequiredResources c run d).2.issued =
            if o.ping && o.prepare then
              d.issued ++ insertsOf run.ID pre ++ [Statement.insert (insertOf run.ID r)]
            else d.issued ++ insertsOf run.ID pre) ∧
    (c.db = some () → (∀ o ∈ d.outcomes.take run.Resources.length, o.succeeds = true) →
        (SaveRequiredResources c run d).1 = none ∧
        (SaveRequiredResources c run d).2.required_resources =
          d.required_resources ++ insertedRows run.ID d.requiredResourcesIdentity run.Resources ∧
        (insertedRows run.ID d.requiredResourcesIdentity run.Resources).length
          = run.Resources.length ∧
        (SaveRequiredResources c run d).2.runs = d.runs ∧
        (SaveRequiredResources c run d).2.issued = d.issued ++ insertsOf run.ID run.Resources) ∧
    (c.db = none → ∀ r post, run.Resources = r :: post →
        ∃ err, SaveRequiredResources c run d = (some err, d)) := by
  refine ⟨?_, ?_, ?_⟩
  · intro hc pre r post o rest hres hout hfail
    have hs : ∀ o' ∈ d.outcomes.take pre.length, o'.succeeds = true := by
      rw [hout, take_replicate_append]
      intro o' ho'
      rw [List.eq_of_mem_replicate ho']
      rfl
    have hloop := saveLoop_append c hc run.ID pre (r :: post) d hs
    have hhead : ((d.afterInserts run.ID pre).outcomes.headD {}) = o := by
      simp only [Database.afterInserts, hout, drop_replicate_append]
      rfl
    obtain ⟨err, herr⟩ := execSQL_fails c hc (insertOf run.ID r) (d.afterInserts run.ID pre)
      (by rw [hhead]; exact hfail)
    refine ⟨"Failed to insert req resources " ++ err, ?_⟩
    unfold SaveRequiredResources
    rw [hres, hloop]
    simp only [saveLoop, herr, hhead]
    refine ⟨trivial, rfl, rfl, ?_⟩
    cases o.ping && o.prepare <;> rfl
  · intro hc hs
    have hloop := saveLoop_append c hc run.ID run.Resources [] d hs
    rw [List.append_nil] at hloop
    unfold SaveRequiredResources
    rw [hloop]
    exact ⟨rfl, rfl, length_insertedRows _ _ _, rfl, rfl⟩
  · intro hc r post hres
    unfold SaveRequiredResources
    rw [hres]
    simp only [saveLoop, execSQL_nil c hc]
    exact ⟨_, rfl⟩

/-- C8 at the scenario of the specification: three resources, the second
insert fails; the row of the first is in the table, no statement is issued for
the third, and an error is returned. -/
theorem C8_witness :
    SaveRequiredResources ⟨some ()⟩
        { ID := 7, Resources := [webRecord, apiRecord, webRecord] }
        { outcomes := [{}, { query := false }] }
      = (some "Failed to insert req resources query: statement failed",
         { required_resources := [⟨1, 7, "", "a", "prod", "web", 150, 0, 3⟩],
           requiredResourcesIdentity := 2,
           issued := [Statement.insert (insertOf 7 webRecord),
                      Statement.insert (insertOf 7 apiRecord)] }) ∧
    ∃ err, (SaveRequiredResources ⟨some ()⟩
        { ID := 7, Resources := [webRecord, apiRecord, webRecord] }
        { outcomes := [{}, { query := false }] }).1 = some err ∧
      (SaveRequiredResources ⟨some ()⟩
        { ID := 7, Resources := [webRecord, apiRecord, webRecord] }
        { outcomes := [{}, { query := false }] }).2.required_resources =
          [] ++ insertedRows 7 1 [webRecord] ∧
      (SaveRequiredResources ⟨some ()⟩
        { ID := 7, Resources := [webRecord, apiRecord, webRecord] }
        { outcomes := [{}, { query := false }] }).2.runs = [] ∧
      (SaveRequiredResources ⟨some ()⟩
        { ID := 7, Resources := [webRecord, apiRecord, webRecord] }
        { outcomes := [{}, { query := false }] }).2.issued =
          [] ++ insertsOf 7 [webRecord] ++ [Statement.insert (insertOf 7 apiRecord)] :=
  ⟨by decide,
    (C8_record_by_record ⟨some ()⟩
      { ID := 7, Resources := [webRecord, apiRecord, webRecord] }
      { outcomes := [{}, { query := false }] }).1 rfl
      [webRecord] apiRecord [webRecord] { query := false } [] rfl rfl rfl⟩

/-- C9, as stated, fails: with a nil connection handle `SaveRequiredResources`
on a run without resources returns a nil error. -/
theorem C9_counterexample :
    SaveRequiredResources ⟨none⟩ { ID := 7, Resources := [] } {} = (none, {}) ∧
    (SaveRequiredResources ⟨some ()⟩ { ID := 7, Resources := [] }
      { outcomes := [{ ping := false }] }).1 = none := by
  decide

/-- C9, amended: when the connection handle is nil or the liveness probe
fails, `SaveRun` returns `-1` and an error, `GetRunsBetweenTimes` returns an
error, and `SaveRequiredResources` on a run with at least one resource returns
an error; none of them issues a statement or changes a table.  On a run
without resources `SaveRequiredResources` returns nil without probing the
connection, and issues no statement either. -/
theorem C9_connection_unavailable (c : SQLClient) (d : Database)
    (h : c.db = none ∨ (d.outcomes.headD {}).ping = false) :
    (∀ t cpu mem, ∃ err, (SaveRun c t cpu mem d).1 = (-1, some err) ∧
      (SaveRun c t cpu mem d).2.issued = d.issued ∧
      (SaveRun c t cpu mem d).2.runs = d.runs ∧
      (SaveRun c t cpu mem d).2.required_resources = d.required_resources) ∧
    (∀ run : Run, run.Resources ≠ [] →
      ∃ err, (SaveRequiredResources c run d).1 = some err ∧
        (SaveRequiredResources c run d).2.issued = d.issued ∧
        (SaveRequiredResources c run d).2.runs = d.runs ∧
        (SaveRequiredResources c run d).2.required_resources = d.required_resources) ∧
    (∀ lower upper, ∃ err, (GetRunsBetweenTimes c lower upper d).1 = .ok ([], some err) ∧
      (GetRunsBetweenTimes c lower upper d).2.issued = d.issued ∧
      (GetRunsBetweenTimes c lower upper d).2.runs = d.runs ∧
      (GetRunsBetweenTimes c lower upper d).2.required_resources = d.required_resources) ∧
    (∀ run : Run, run.Resources = [] → SaveRequiredResources c run d = (none, d)) := by
  refine ⟨fun t cpu mem => execSQL_ping_fails c _ d h, fun run hne => ?_,
    fun lower upper => ?_, fun run hnil => ?_⟩
  · obtain ⟨req, rest, hres⟩ := List.exists_cons_of_ne_nil hne
    obtain ⟨err, h1, h2, h3, h4⟩ := execSQL_ping_fails c (insertOf run.ID req) d h
    unfold SaveRequiredResources
    rw [hres]
    simp only [saveLoop]
    generalize execSQL c (insertOf run.ID req) d = res at h1 h2 h3 h4
    obtain ⟨⟨newID, e⟩, d'⟩ := res
    simp only [Prod.mk.injEq] at h1
    obtain ⟨_, rfl⟩ := h1
    exact ⟨_, rfl, h2, h3, h4⟩
  · unfold GetRunsBetweenTimes
    cases hc : c.db with
    | none => rw [verifyConnection_nil c hc]; exact ⟨_, rfl, rfl, rfl, rfl⟩
    | some u =>
      have hp : (d.outcomes.headD {}).ping = false := by
        rcases h with h | h
        · rw [hc] at h; cases h
        · exact h
      rw [verifyConnection_dead c hc d hp]
      exact ⟨_, rfl, rfl, rfl, rfl⟩
  · unfold SaveRequiredResources
    rw [hnil]
    rfl

/-- C9 at a live handle whose liveness probe fails. -/
theorem C9_witness :
    (∀ t cpu mem, ∃ err,
      (SaveRun ⟨some ()⟩ t cpu mem { outcomes := [{ ping := false }] }).1 = (-1, some err) ∧
      (SaveRun ⟨some ()⟩ t cpu mem { outcomes := [{ ping := false }] }).2.issued = [] ∧
      (SaveRun ⟨some ()⟩ t cpu mem { outcomes := [{ ping := false }] }).2.runs = [] ∧
      (SaveRun ⟨some ()⟩ t cpu mem
        { outcomes := [{ ping := false }] }).2.required_resources = []) ∧
    (SaveRequiredResources ⟨some ()⟩ { ID := 7, Resources := [webRecord] }
      { outcomes := [{ ping := false }] }).1
        = some "Failed to insert req resources ping: connection is not alive" ∧
    (GetRunsBetweenTimes ⟨some ()⟩ 0 20 { outcomes := [{ ping := false }] }).1
        = .ok ([], some "ping: connection is not alive") :=
  ⟨(C9_connection_unavailable ⟨some ()⟩ { outcomes := [{ ping := false }] }
      (Or.inr rfl)).1, by decide, by decide⟩

/-! ## The retrieval statement -/

theorem mem_rowIds_select (d : Database) (lower upper i : Int) :
    i ∈ rowIds (d.selectRunsBetween lower upper) ↔
      ∃ r ∈ d.runs, r.id = i ∧ lower ≤ r.measured_time_utc ∧ r.measured_time_utc ≤ upper ∧
        ∃ rr ∈ d.required_resources, rr.run_id = i := by
  simp only [rowIds, Database.selectRunsBetween, List.mem_map, List.mem_flatMap,
    List.mem_filter, decide_eq_true_eq]
  constructor
  · rintro ⟨row, ⟨r, ⟨hr, h1, h2⟩, rr, ⟨hrr, hid⟩, rfl⟩, rfl⟩
    exact ⟨r, hr, rfl, h1, h2, rr, hrr, hid.symm⟩
  · rintro ⟨r, hr, rfl, h1, h2, rr, hrr, hid⟩
    exact ⟨joinRow r rr, ⟨r, ⟨hr, h1, h2⟩, rr, ⟨hrr, hid.symm⟩, rfl⟩, rfl⟩

theorem mem_select (d : Database) (lower upper : Int) (row : ResultRow) :
    row ∈ d.selectRunsBetween lower upper ↔
      ∃ r ∈ d.runs, lower ≤ r.measured_time_utc ∧ r.measured_time_utc ≤ upper ∧
        ∃ rr ∈ d.required_resources, r.id = rr.run_id ∧ row = joinRow r rr := by
  simp only [Database.selectRunsBetween, List.mem_map, List.mem_flatMap,
    List.mem_filter, decide_eq_true_eq]
  constructor
  · rintro ⟨r, ⟨hr, h1, h2⟩, rr, ⟨hrr, hid⟩, rfl⟩
    exact ⟨r, hr, h1, h2, rr, hrr, hid, rfl⟩
  · rintro ⟨r, hr, h1, h2, rr, hrr, hid, rfl⟩
    exact ⟨r, ⟨hr, h1, h2⟩, rr, ⟨hrr, hid⟩, rfl⟩

/-- On a live connection whose query succeeds, `GetRunsBetweenTimes` returns
the reconstruction of the selected rows. -/
theorem GetRunsBetweenTimes_ok (c : SQLClient) (hc : c.db = some ()) (d : Database)
    (hp : (d.outcomes.headD {}).ping = true) (hq : (d.outcomes.headD {}).query = true)
    (lower upper : Int) {runs : List Run}
    (hr : reconstructRuns (d.selectRunsBetween lower upper) = .ok runs) :
    (GetRunsBetweenTimes c lower upper d).1 = .ok (runs, none) := by
  unfold GetRunsBetweenTimes
  rw [verifyConnection_alive c hc d hp]
  simp only [hq, if_true]
  have hsel : Database.selectRunsBetween
      { runs := d.runs, required_resources := d.required_resources,
        runsIdentity := d.runsIdentity,
        requiredResourcesIdentity := d.requiredResourcesIdentity,
        outcomes := d.outcomes.tail,
        issued := d.issued ++ [Statement.selectRunsBetween lower upper] } lower upper
      = d.selectRunsBetween lower upper := rfl
  rw [hsel, hr]

/-- C6, as stated, fails: a run within the bounds that has no row in
`required_resources` is not returned. -/
theorem C6_counterexample :
    (GetRunsBetweenTimes ⟨some ()⟩ 0 20 { runs := [⟨1, 10, 100, 200⟩] }).1
      = .ok ([], none) := by
  decide

/-- C6, amended: on a live connection whose query succeeds,
`GetRunsBetweenTimes` returns no run for a run row within the inclusive bounds
that has no row in `required_resources` (the statement is an inner join); it
returns a run for every run row within the bounds that has a row in
`required_resources`; and every returned run carries the identifier and the
timestamp of a run row whose timestamp is within the bounds. -/
theorem C6_inner_join (c : SQLClient) (hc : c.db = some ()) (d : Database)
    (hp : (d.outcomes.headD {}).ping = true) (hq : (d.outcomes.headD {}).query = true)
    (lower upper : Int) :
    ∃ runs, (GetRunsBetweenTimes c lower upper d).1 = .ok (runs, none) ∧
      (∀ r ∈ d.runs, lower ≤ r.measured_time_utc → r.measured_time_utc ≤ upper →
        (∀ rr ∈ d.required_resources, rr.run_id ≠ r.id) → ∀ run ∈ runs, run.ID ≠ r.id) ∧
      (∀ r ∈ d.runs, lower ≤ r.measured_time_utc → r.measured_time_utc ≤ upper →
        (∃ rr ∈ d.required_resources, rr.run_id = r.id) → ∃ run ∈ runs, run.ID = r.id) ∧
      (∀ run ∈ runs, ∃ r ∈ d.runs, r.id = run.ID ∧
        r.measured_time_utc = run.MeasuredTimeUTC ∧
        lower ≤ r.measured_time_utc ∧ r.measured_time_utc ≤ upper) := by
  obtain ⟨runs, hok, _, hids, horigin, _⟩ :=
    reconstructRuns_spec (d.selectRunsBetween lower upper)
  refine ⟨runs, GetRunsBetweenTimes_ok c hc d hp hq lower upper hok, ?_, ?_, ?_⟩
  · intro r _ _ _ hnone run hrun hid
    have hmem := (hids run.ID).mp (List.mem_map.mpr ⟨run, hrun, rfl⟩)
    obtain ⟨_, _, _, _, _, rr, hrr, hrrid⟩ := (mem_rowIds_select d lower upper run.ID).mp hmem
    exact hnone rr hrr (hrrid.trans hid)
  · intro r hr h1 h2 ⟨rr, hrr, hrrid⟩
    have hmem : r.id ∈ rowIds (d.selectRunsBetween lower upper) :=
      (mem_rowIds_select d lower upper r.id).mpr ⟨r, hr, rfl, h1, h2, rr, hrr, hrrid⟩
    obtain ⟨run, hrun, hid⟩ := List.mem_map.mp ((hids r.id).mpr hmem)
    exact ⟨run, hrun, hid⟩
  · intro run hrun
    obtain ⟨row, hrow, hid, hhead⟩ := horigin run hrun
    obtain ⟨r, hr, h1, h2, rr, _, _, rfl⟩ := (mem_select d lower upper row).mp hrow
    refine ⟨r, hr, hid, ?_, h1, h2⟩
    exact (congrArg Run.MeasuredTimeUTC hhead).symm

/-- C6 at a database with three runs: run `1` within the bounds with a
resource, run `2` within the bounds without resources, run `3` with a resource
but outside the bounds; only run `1` is returned. -/
theorem C6_witness :
    (GetRunsBetweenTimes ⟨some ()⟩ 0 20 storedRuns).1
      = .ok ([{ ID := 1, MeasuredTimeUTC := 10, ClusterCPUMillicore := 100,
                ClusterMemoryMegaByte := 200,
                Resources := [{ ID := 1, WBS := "w", Application := "a",
                                Environment := "prod", Component := "web",
                                CPUMillicore := 150, MemoryMegaBytes := 64,
                                Replicas := 3 }] }], none) ∧
    ∃ runs, (GetRunsBetweenTimes ⟨some ()⟩ 0 20 storedRuns).1 = .ok (runs, none) ∧
      (∀ r ∈ storedRuns.runs, 0 ≤ r.measured_time_utc → r.measured_time_utc ≤ 20 →
        (∀ rr ∈ storedRuns.required_resources, rr.run_id ≠ r.id) →
          ∀ run ∈ runs, run.ID ≠ r.id) ∧
      (∀ r ∈ storedRuns.runs, 0 ≤ r.measured_time_utc → r.measured_time_utc ≤ 20 →
        (∃ rr ∈ storedRuns.required_resources, rr.run_id = r.id) →
          ∃ run ∈ runs, run.ID = r.id) ∧
      (∀ run ∈ runs, ∃ r ∈ storedRuns.runs, r.id = run.ID ∧
        r.measured_time_utc = run.MeasuredTimeUTC ∧
        0 ≤ r.measured_time_utc ∧ r.measured_time_utc ≤ 20) :=
  ⟨by decide, C6_inner_join ⟨some ()⟩ rfl storedRuns rfl rfl 0 20⟩

/-! ## The round trip -/

theorem rowsOf_flatMap_join (i : Int) (resources : List RequiredResourcesRow)
    (runs : List RunsRow) :
    rowsOf i (runs.flatMap fun r =>
        (resources.filter fun rr => r.id = rr.run_id).map (joinRow r)) =
      (runs.filter fun r => r.id = i).flatMap fun r =>
        (resources.filter fun rr => r.id = rr.run_id).map (joinRow r) := by
  induction runs with
  | nil => rfl
  | cons r rest ih =>
    simp only [rowsOf] at ih
    simp only [rowsOf, List.flatMap_cons, List.filter_append, ih, List.filter_cons]
    by_cases h : r.id = i
    · simp only [h, decide_True, if_true, List.flatMap_cons]
      congr 1
      rw [List.filter_eq_self]
      intro row hrow
      obtain ⟨rr, _, rfl⟩ := List.mem_map.mp hrow
      simp [joinRow, h]
    · simp only [h, decide_False, if_false, Bool.false_eq_true]
      rw [List.filter_eq_nil_iff.mpr, List.nil_append]
      intro row hrow
      obtain ⟨rr, _, rfl⟩ := List.mem_map.mp hrow
      simp [joinRow, h]

theorem run_id_of_mem_insertedRows {runID : Int} {reqs : List RequiredResources}
    {firstId : Int} {rr : RequiredResourcesRow} (h : rr ∈ insertedRows runID firstId reqs) :
    rr.run_id = runID := by
  induction reqs generalizing firstId with
  | nil => simp [insertedRows] at h
  | cons req rest ih =>
    simp only [insertedRows, List.mem_cons] at h
    rcases h with h | h
    · rw [h]
    · exact ih h

theorem unsaved_insertedRows (r : RunsRow) (runID firstId : Int)
    (reqs : List RequiredResources) :
    (insertedRows runID firstId reqs).map
        (fun rr => (joinRow r rr).resource.unsaved) =
      reqs.map RequiredResources.unsaved := by
  induction reqs generalizing firstId with
  | nil => rfl
  | cons req rest ih =>
    simp only [insertedRows, List.map_cons, ih]
    rfl

theorem eq_of_mem_of_ID_eq {runs : List Run} (hnd : (runs.map Run.ID).Nodup)
    {a b : Run} (ha : a ∈ runs) (hb : b ∈ runs) (h : a.ID = b.ID) : a = b :=
  List.inj_on_of_nodup_map hnd ha hb h

/-- C7, as stated, fails: a run saved with no resource record is not
retrieved (first part), and with the storage-assigned identifier `0` a run
saved with two records is retrieved with one (second part). -/
theorem C7_counterexample :
    roundTrip ⟨some ()⟩ {} 10 100 200 [] 10 10 = ((1, none), none, .ok ([], none)) ∧
    roundTrip ⟨some ()⟩ { runsIdentity := 0 } 10 100 200 [webRecord, apiRecord] 10 10
      = ((0, none), none,
         .ok ([{ ID := 0, MeasuredTimeUTC := 10, ClusterCPUMillicore := 100,
                 ClusterMemoryMegaByte := 200,
                 Resources := [{ apiRecord with ID := 2 }] }], none)) := by
  decide

theorem headD_succeeds_of_forall {outcomes : List Outcome}
    (h : ∀ o ∈ outcomes, o.succeeds = true) : (outcomes.headD {}).succeeds = true := by
  cases outcomes with
  | nil => rfl
  | cons o rest => exact h o (by simp)

/-- C7, amended: on a live connection on which every statement succeeds, in a
database where the next run identifier is non-zero and not yet used by a row
of either table, saving a run with timestamp `T` and cluster totals and then
at least one resource record under the returned identifier, and retrieving
with bounds `lower ≤ T ≤ upper`, yields exactly one run with that identifier;
it has the timestamp `T`, the same cluster totals and as many resources as
were saved, which are the saved records up to their storage-assigned
identifiers. -/
theorem C7_round_trip (c : SQLClient) (hc : c.db = some ()) (d : Database)
    (hout : ∀ o ∈ d.outcomes, o.succeeds = true)
    (hruns : ∀ r ∈ d.runs, r.id ≠ d.runsIdentity)
    (hres : ∀ rr ∈ d.required_resources, rr.run_id ≠ d.runsIdentity)
    (hid : d.runsIdentity ≠ 0)
    (T cpu mem : Int) (reqs : List RequiredResources) (hne : reqs ≠ [])
    (lower upper : Int) (hlo : lower ≤ T) (hhi : T ≤ upper) :
    ∃ runs, roundTrip c d T cpu mem reqs lower upper
        = ((d.runsIdentity, none), none, .ok (runs, none)) ∧
      ∃ run ∈ runs, run.ID = d.runsIdentity ∧ run.MeasuredTimeUTC = T ∧
        run.ClusterCPUMillicore = cpu ∧ run.ClusterMemoryMegaByte = mem ∧
        run.Resources.length = reqs.length ∧
        (run.Resources.map RequiredResources.unsaved).Perm
          (reqs.map RequiredResources.unsaved) ∧
        ∀ run' ∈ runs, run'.ID = d.runsIdentity → run' = run := by
  -- `SaveRun`
  have hsave : SaveRun c T cpu mem d = ((d.runsIdentity, none), d.afterSaveRun T cpu mem) :=
    execSQL_succeeds c hc (.run T cpu mem) d (headD_succeeds_of_forall hout)
  generalize hd1 : d.afterSaveRun T cpu mem = d1 at hsave
  have hd1runs : d1.runs = d.runs ++ [⟨d.runsIdentity, T, cpu, mem⟩] := by rw [← hd1]; rfl
  have hd1res : d1.required_resources = d.required_resources := by rw [← hd1]; rfl
  have hd1out : d1.outcomes = d.outcomes.tail := by rw [← hd1]; rfl
  -- `SaveRequiredResources`
  have hs1 : ∀ o ∈ d1.outcomes.take reqs.length, o.succeeds = true := fun o ho =>
    hout o (List.mem_of_mem_tail (hd1out ▸ List.mem_of_mem_take ho))
  have hstore : SaveRequiredResources c
      { ID := d.runsIdentity, MeasuredTimeUTC := T, ClusterCPUMillicore := cpu,
        ClusterMemoryMegaByte := mem, Resources := reqs } d1
        = (none, d1.afterInserts d.runsIdentity reqs) := by
    have hloop := saveLoop_append c hc d.runsIdentity reqs [] d1 hs1
    rw [List.append_nil] at hloop
    exact hloop
  generalize hd2 : d1.afterInserts d.runsIdentity reqs = d2 at hstore
  have hd2runs : d2.runs = d.runs ++ [⟨d.runsIdentity, T, cpu, mem⟩] := by
    rw [← hd2]; exact hd1runs
  have hd2res : d2.required_resources = d.required_resources ++
      insertedRows d.runsIdentity d1.requiredResourcesIdentity reqs := by
    rw [← hd2]; simp only [Database.afterInserts, hd1res]
  have hd2out : ∀ o ∈ d2.outcomes, o.succeeds = true := by
    intro o ho
    rw [← hd2] at ho
    simp only [Database.afterInserts, hd1out] at ho
    exact hout o (List.mem_of_mem_tail (List.mem_of_mem_drop ho))
  -- `GetRunsBetweenTimes`
  have hhead2 := headD_succeeds_of_forall hd2out
  simp only [Outcome.succeeds, Bool.and_eq_true] at hhead2
  obtain ⟨runs, hok, hnd, hids, _, hrec⟩ :=
    reconstructRuns_spec (d2.selectRunsBetween lower upper)
  have hget := GetRunsBetweenTimes_ok c hc d2 hhead2.1.1 hhead2.2 lower upper hok
  refine ⟨runs, ?_, ?_⟩
  · simp only [roundTrip, hsave, hstore, hget]
  -- the rows of the saved run
  obtain ⟨req0, rest0, hreqs⟩ := List.exists_cons_of_ne_nil hne
  have hrows : rowsOf d.runsIdentity (d2.selectRunsBetween lower upper) =
      (insertedRows d.runsIdentity d1.requiredResourcesIdentity reqs).map
        (joinRow ⟨d.runsIdentity, T, cpu, mem⟩) := by
    unfold Database.selectRunsBetween
    rw [rowsOf_flatMap_join, hd2runs, hd2res, List.filter_append, List.filter_append]
    have h1 : List.filter (fun r : RunsRow => decide (r.id = d.runsIdentity))
        (List.filter (fun r : RunsRow =>
          decide (lower ≤ r.measured_time_utc ∧ r.measured_time_utc ≤ upper)) d.runs) = [] := by
      rw [List.filter_eq_nil_iff]
      intro r hr
      simpa using hruns r (List.mem_filter.mp hr).1
    have h2 : List.filter (fun r : RunsRow => decide (r.id = d.runsIdentity))
        (List.filter (fun r : RunsRow =>
          decide (lower ≤ r.measured_time_utc ∧ r.measured_time_utc ≤ upper))
          [⟨d.runsIdentity, T, cpu, mem⟩]) = [⟨d.runsIdentity, T, cpu, mem⟩] := by
      simp [List.filter_cons, hlo, hhi]
    rw [h1, h2, List.nil_append]
    simp only [List.flatMap_cons, List.flatMap_nil, List.append_nil, List.filter_append]
    have h3 : List.filter (fun rr : RequiredResourcesRow => decide (d.runsIdentity = rr.run_id))
        d.required_resources = [] := by
      rw [List.filter_eq_nil_iff]
      intro rr hrr
      simpa [eq_comm] using hres rr hrr
    have h4 : List.filter (fun rr : RequiredResourcesRow => decide (d.runsIdentity = rr.run_id))
        (insertedRows d.runsIdentity d1.requiredResourcesIdentity reqs) =
          insertedRows d.runsIdentity d1.requiredResourcesIdentity reqs := by
      rw [List.filter_eq_self]
      intro rr hrr
      simpa using (run_id_of_mem_insertedRows hrr).symm
    rw [h3, h4, List.nil_append]
  have hmem : d.runsIdentity ∈ rowIds (d2.selectRunsBetween lower upper) := by
    rw [mem_rowIds_select]
    refine ⟨⟨d.runsIdentity, T, cpu, mem⟩, by simp [hd2runs], rfl, hlo, hhi, ?_⟩
    refine ⟨⟨d1.requiredResourcesIdentity, d.runsIdentity, req0.WBS, req0.Application,
      req0.Environment, req0.Component, req0.CPUMillicore, req0.MemoryMegaBytes,
      req0.Replicas⟩, ?_, rfl⟩
    rw [hd2res, hreqs]
    simp [insertedRows]
  obtain ⟨run, hrun, hrunid⟩ := List.mem_map.mp ((hids d.runsIdentity).mpr hmem)
  obtain ⟨hresources, row, hhead, hheader⟩ := hrec run hrun (hrunid ▸ hid)
  rw [hrunid, hrows] at hresources hhead
  have hrow : row = joinRow ⟨d.runsIdentity, T, cpu, mem⟩
      ⟨d1.requiredResourcesIdentity, d.runsIdentity, req0.WBS, req0.Application,
        req0.Environment, req0.Component, req0.CPUMillicore, req0.MemoryMegaBytes,
        req0.Replicas⟩ := by
    rw [hreqs] at hhead
    simp only [insertedRows, List.map_cons, List.head?_cons, Option.some.injEq] at hhead
    exact hhead.symm
  refine ⟨run, hrun, hrunid, ?_, ?_, ?_, ?_, ?_, ?_⟩
  · rw [congrArg Run.MeasuredTimeUTC hheader, hrow]; rfl
  · rw [congrArg Run.ClusterCPUMillicore hheader, hrow]; rfl
  · rw [congrArg Run.ClusterMemoryMegaByte hheader, hrow]; rfl
  · rw [hresources, List.length_map, List.length_map, length_insertedRows]
  · rw [hresources, List.map_map, List.map_map]
    exact List.Perm.of_eq (unsaved_insertedRows _ _ _ reqs)
  · intro run' hrun' hid'
    exact eq_of_mem_of_ID_eq hnd hrun' hrun (hid'.trans hrunid.symm)

/-- C7 at an empty database: a run saved at time 10 with two records is
retrieved with the bounds `[10, 10]`. -/
theorem C7_witness :
    roundTrip ⟨some ()⟩ {} 10 100 200 [webRecord, apiRecord] 10 10
      = ((1, none), none,
         .ok ([{ ID := 1, MeasuredTimeUTC := 10, ClusterCPUMillicore := 100,
                 ClusterMemoryMegaByte := 200,
                 Resources := [{ webRecord with ID := 1 }, { apiRecord with ID := 2 }] }],
              none)) ∧
    ∃ runs, roundTrip ⟨some ()⟩ {} 10 100 200 [webRecord, apiRecord] 10 10
        = (((({} : Database).runsIdentity), none), none, .ok (runs, none)) ∧
      ∃ run ∈ runs, run.ID = ({} : Database).runsIdentity ∧ run.MeasuredTimeUTC = 10 ∧
        run.ClusterCPUMillicore = 100 ∧ run.ClusterMemoryMegaByte = 200 ∧
        run.Resources.length = [webRecord, apiRecord].length ∧
        (run.Resources.map RequiredResources.unsaved).Perm
          ([webRecord, apiRecord].map RequiredResources.unsaved) ∧
        ∀ run' ∈ runs, run'.ID = ({} : Database).runsIdentity → run' = run :=
  ⟨by decide,
    C7_round_trip ⟨some ()⟩ rfl {} (by decide) (by decide) (by decide) (by decide)
      10 100 200 [webRecord, apiRecord] (by decide) 10 10 (by decide) (by decide)⟩

end RadixCost
